import Mathlib

/-!
Shallow embedding of the GreenTransferScheduler planning core.

Real-valued quantities of the Python source (floats) are modelled as rationals
(`ℚ`); Python dictionaries keyed by strings are association lists or functions;
a Python function that can raise is modelled as an `Option`-valued function,
`none` standing for the raised exception.  Python `sorted` (a stable sort) is
modelled by `List.insertionSort`, which is stable and produces the same list as
any stable sort with the same ordering.

Sources embedded:
  - src/scheduler_cli/generator.py            (DataGenerator)
  - src/scheduler_cli/algos/greedy_carbon_planner.py (CarbonAwarePlanner)
  - src/scheduler_cli/algos/round_robin.py    (RoundRobin)
  - src/scheduler_cli/algos/shortest_job_first.py (ShortestJobFirst)
  - src/scheduler_cli/algos/worst_case_planner.py (WorstCasePlanner)
  - src/scheduler_cli/algos/milp_green.py     (MilpGreenPlanner)
-/

/-- One job of jobs.json: `{id, bytes, deadline}`; a null deadline is `none`. -/
structure Job where
  id : ℕ
  bytes : ℕ
  deadline : Option ℕ
deriving DecidableEq, Repr

namespace DataGenerator

/-- One hop of a traceroute; only the ip is consulted by the emission code. -/
structure Hop where
  ip : String
deriving DecidableEq, Repr

/-- The parsed simulator output `energy_consumption_{route}_{job}_.json`. -/
structure EnergyData where
  transfer_duration : ℚ
  hosts : List (String × ℚ)
  links : List (String × ℚ)
  total_energy_hosts : ℚ
  total_link_energy : ℚ
  job_size_bytes : ℕ
deriving Repr

/-- `route_key.split('_')`, written out on the character list so that it
computes by kernel reduction (`String.splitOn` specialised to the separator
being the single character underscore). -/
def split_chars : List Char → List (List Char)
  | [] => [[]]
  | c :: cs =>
    let r := split_chars cs
    if c = '_' then [] :: r
    else
      match r with
      | [] => [[c]]
      | g :: gs => (c :: g) :: gs

/-- `route_key.split('_')` of generator.py lines 243-244. -/
def route_key_split (route_key : String) : List String :=
  (split_chars route_key.toList).map (fun cs => String.mk cs)

/-- Component naming of generator.py lines 256-264: hop 0 is the source node,
the last hop is the destination node, intermediate hops use the router map with
the fallback name `router_{route_key}_{i}`. -/
def host_name_of_hop (route_key source_node destination_name : String)
    (route_routers : List (String × String)) (n i : ℕ) (ip : String) : String :=
  if i = 0 then source_node
  else if i = n - 1 then destination_name
  else ((route_routers.lookup ip).getD ("router_" ++ route_key ++ "_" ++ toString i))

/-- Link naming of generator.py lines 256-264: endpoints have `link_name = None`,
intermediate hops use the link map with the fallback `link_{route_key}_{i}`. -/
def link_name_of_hop (route_key : String) (route_links : List (String × String))
    (n i : ℕ) (ip : String) : Option String :=
  if i = 0 then none
  else if i = n - 1 then none
  else some ((route_links.lookup ip).getD ("link_" ++ route_key ++ "_" ++ toString i))

/-- The per-hop hour loop of generator.py lines 275-291: hour `k` uses the
carbon intensity at `(forecast_id + k) % forecast_len`; the last hour gets the
fractional weight `transfer_hours - (num_hours - 1)`, earlier hours weight 1;
joules are converted to kWh by dividing by 3.6e6. -/
def hop_emissions_loop (hourly_energy transfer_hours : ℚ)
    (num_hours forecast_id forecast_len : ℕ) (ci : ℕ → ℚ) : ℚ :=
  (List.range num_hours).foldl
    (fun acc hour_offset =>
      let current_fidx := (forecast_id + hour_offset) % forecast_len
      let ci_value := ci current_fidx
      let energy_kwh :=
        if hour_offset = num_hours - 1 then
          hourly_energy * (transfer_hours - (num_hours - 1 : ℕ)) / 3600000
        else hourly_energy / 3600000
      acc + energy_kwh * ci_value) 0

/-- One iteration of the hop loop of generator.py lines 253-293.  The host
energy lookup is `energy_data['hosts'].get(host_name)` with NO default, so a
missing host name yields Python `None` and the following addition raises a
`TypeError`: modelled by `none`.  The link lookup has the default `0.0`. -/
def hop_emission (route_key source_node destination_name : String)
    (route_routers route_links : List (String × String))
    (ci : String → ℕ → ℚ) (energy : EnergyData)
    (transfer_hours : ℚ) (num_hours forecast_id forecast_len n : ℕ)
    (i : ℕ) (ip : String) : Option ℚ :=
  let host_name := host_name_of_hop route_key source_node destination_name route_routers n i ip
  let link_name := link_name_of_hop route_key route_links n i ip
  match energy.hosts.lookup host_name with
  | none => none
  | some host_energy =>
    let link_energy : ℚ :=
      match link_name with
      | none => 0
      | some l => (energy.links.lookup l).getD 0
    let total_energy := host_energy + link_energy
    let hourly_energy := total_energy / transfer_hours
    some (hop_emissions_loop hourly_energy transfer_hours num_hours forecast_id forecast_len (ci ip))

/-- DataGenerator.emissions_for_path_forecast (generator.py lines 235-297).
`ci ip fidx` abstracts the dataframe lookup of the ci value for the hop ip at
forecast index fidx.  The fold over hops propagates the per-hop failure. -/
def emissions_for_path_forecast (route_key : String) (forecast_id forecast_len : ℕ)
    (traceroute : List Hop) (route_routers route_links : List (String × String))
    (ci : String → ℕ → ℚ) (energy : EnergyData) : Option ℚ :=
  let transfer_hours := energy.transfer_duration / 3600
  let num_hours := min (Int.toNat ⌈transfer_hours⌉) forecast_len
  let parts := route_key_split route_key
  let source_node := parts.getD 0 ""
  let destination_name := parts.getD 1 ""
  let n := traceroute.length
  traceroute.enum.foldlM
    (fun acc p =>
      (hop_emission route_key source_node destination_name route_routers route_links ci energy
          transfer_hours num_hours forecast_id forecast_len n p.1 p.2.ip).map (acc + ·))
    0

/-- Total energy charged to hop `i` when the computation succeeds: host energy
(present in the map) plus link energy (0 when absent or for endpoints). -/
def hop_energy_total (route_key source_node destination_name : String)
    (route_routers route_links : List (String × String)) (energy : EnergyData)
    (n i : ℕ) (ip : String) : ℚ :=
  (energy.hosts.lookup (host_name_of_hop route_key source_node destination_name route_routers n i ip)).getD 0 +
  (match link_name_of_hop route_key route_links n i ip with
   | none => 0
   | some l => (energy.links.lookup l).getD 0)

/-- The spec formula of section 4.4 for a single hop, stated as in the claim:
`E_hop / T_h` spread over `N` hours starting at `forecast_id`, hour `k` at ci
index `(forecast_id + k) mod H`, the last hour weighted `T_h - (N-1)`, each
converted to kWh by dividing by 3.6e6. -/
def claim_hop_formula (E_hop T_h : ℚ) (N forecast_id H : ℕ) (ci : ℕ → ℚ) : ℚ :=
  ∑ k ∈ Finset.range N,
    E_hop / T_h * (if k = N - 1 then T_h - (N - 1 : ℕ) else 1) / 3600000 * ci ((forecast_id + k) % H)

/-- One row of the associations table (generator.py lines 197-216, the columns
the planners consume). -/
structure AssocRow where
  source_node : String
  destination_node : String
  route_key : String
  job_id : ℕ
  forecast_id : ℕ
  transfer_time : ℚ
  throughput : ℚ
  carbon_emissions : ℚ
deriving Repr

/-- DataGenerator.create_intervals_historical (generator.py lines 127-233),
restricted to the row construction: a (route, job) with no simulator output
contributes no rows; a (route, job, forecast) whose emission computation fails
contributes no row. -/
def create_intervals_historical (route_keys : List String) (jobs : List Job)
    (forecast_idx : List ℕ)
    (sim_output : String → ℕ → Option EnergyData)
    (emissions : String → ℕ → ℕ → EnergyData → Option ℚ) : List AssocRow :=
  route_keys.foldl
    (fun data_list route_key =>
      let parts := route_key_split route_key
      let source_node := parts.getD 0 ""
      let destination_node := parts.getD 1 ""
      jobs.foldl
        (fun data_list job =>
          match sim_output route_key job.id with
          | none => data_list
          | some energy_json =>
            forecast_idx.foldl
              (fun data_list fidx =>
                match emissions route_key job.id fidx energy_json with
                | none => data_list
                | some e =>
                  data_list ++ [{ source_node := source_node
                                  destination_node := destination_node
                                  route_key := route_key
                                  job_id := job.id
                                  forecast_id := fidx
                                  transfer_time := energy_json.transfer_duration
                                  throughput := (energy_json.job_size_bytes * 8 : ℚ) / energy_json.transfer_duration
                                  carbon_emissions := e }])
              data_list)
        data_list)
    []

end DataGenerator

/-- The job ordering key shared by the greedy planners: numeric deadlines
ascending, null deadlines last (`float('inf')`). -/
def deadline_le_bool (a b : Option ℕ) : Bool :=
  match a, b with
  | some x, some y => x ≤ y
  | some _, none => true
  | none, some _ => false
  | none, none => true

/-- The relation sorted by in greedy_carbon_planner.py lines 24-27 and
round_robin.py lines 89-91. -/
def job_deadline_le (a b : Job) : Prop := deadline_le_bool a.deadline b.deadline = true

instance : DecidableRel job_deadline_le := fun a b => by
  unfold job_deadline_le; infer_instance

instance : IsTotal Job job_deadline_le := by
  constructor
  intro a b
  unfold job_deadline_le deadline_le_bool
  rcases a.deadline with _ | x <;> rcases b.deadline with _ | y <;> simp <;> omega

instance : IsTrans Job job_deadline_le := by
  constructor
  intro a b c
  unfold job_deadline_le deadline_le_bool
  rcases a.deadline with _ | x <;> rcases b.deadline with _ | y <;>
    rcases c.deadline with _ | z <;> simp <;> omega

namespace CarbonAwarePlanner

/-- Per (job, route) metrics of _precompute_job_metrics (greedy_carbon_planner.py
lines 29-45): the first association row of the group. -/
structure Metrics where
  source_node : String
  destination_node : String
  carbon_emissions : ℚ
  throughput : ℚ
  transfer_time : ℚ
deriving DecidableEq, Repr

/-- One emitted schedule entry (_add_schedule_entry, lines 118-136). -/
structure Entry where
  job_id : ℕ
  route : String
  forecast_id : ℕ
  allocated_time : ℚ
  carbon_emissions : ℚ
  transfer_time : ℚ
  deadline : Option ℕ
deriving DecidableEq, Repr

/-- The deadline filter of line 82: `if deadline is not None and slot_id >
deadline: continue`. -/
def slot_skipped (deadline : Option ℕ) (slot_id : ℕ) : Bool :=
  match deadline with
  | some d => slot_id > d
  | none => false

/-- The slot walk of lines 81-97: for each slot in ascending order, skip it when
past the deadline, stop once the remaining need is ≤ 0, otherwise reserve
`min(available, remaining)` whenever `available > 0`.  Returns the updated
per-slot capacity of the route, the recorded (slot, seconds) pairs in
allocation order, and the remaining need. -/
def find_slots (cap : ℕ → ℚ) : List ℕ → Option ℕ → ℚ → (ℕ → ℚ) × List (ℕ × ℚ) × ℚ
  | [], _, remaining => (cap, [], remaining)
  | slot :: rest, deadline, remaining =>
    if slot_skipped deadline slot then find_slots cap rest deadline remaining
    else if remaining ≤ 0 then (cap, [], remaining)
    else
      let available := cap slot
      if 0 < available then
        let alloc := min available remaining
        let r := find_slots (Function.update cap slot (available - alloc)) rest deadline (remaining - alloc)
        (r.1, (slot, alloc) :: r.2.1, r.2.2)
      else find_slots cap rest deadline remaining

/-- The rollback loop of lines 112-114: each partial reservation is added back. -/
def rollback (cap : ℕ → ℚ) (allocated_slots : List (ℕ × ℚ)) : ℕ → ℚ :=
  allocated_slots.foldl (fun c p => Function.update c p.1 (c p.1 + p.2)) cap

/-- _allocate_job (lines 61-116), with the routes already sorted: try each
route; on full coverage commit one entry per participating slot; otherwise roll
the partial reservation back and try the next route. -/
def allocate_job (cap : String → ℕ → ℚ) (time_slots : List ℕ) (job_id : ℕ)
    (deadline : Option ℕ) :
    List (String × Metrics) → Bool × (String → ℕ → ℚ) × List Entry
  | [] => (false, cap, [])
  | (route_key, m) :: rest =>
    let r := find_slots (cap route_key) time_slots deadline m.transfer_time
    if r.2.2 ≤ 0 then
      (true, Function.update cap route_key r.1,
        r.2.1.map (fun p => ⟨job_id, route_key, p.1, p.2, m.carbon_emissions, m.transfer_time, deadline⟩))
    else
      allocate_job (Function.update cap route_key (rollback r.1 r.2.1)) time_slots job_id deadline rest

/-- The route ordering of lines 70-74: stable sort by the per-route
carbon_emissions metric, reversed in max mode. -/
def sort_routes (reverse_sort : Bool) (routes : List (String × Metrics)) :
    List (String × Metrics) :=
  if reverse_sort then
    routes.insertionSort (fun a b => b.2.carbon_emissions ≤ a.2.carbon_emissions)
  else
    routes.insertionSort (fun a b => a.2.carbon_emissions ≤ b.2.carbon_emissions)

/-- The job ordering of lines 24-27. -/
def sort_jobs (jobs : List Job) : List Job :=
  jobs.insertionSort job_deadline_le

/-- CarbonAwarePlanner.plan (lines 47-59): capacity starts at 3600 s per
(route, slot); jobs are processed by ascending deadline; a job that cannot be
fully placed on any route is reported unallocated. -/
def plan (time_slots : List ℕ) (job_metrics : ℕ → List (String × Metrics))
    (reverse_sort : Bool) (jobs : List Job) :
    (String → ℕ → ℚ) × List Entry × List ℕ :=
  (sort_jobs jobs).foldl
    (fun st job =>
      let r := allocate_job st.1 time_slots job.id job.deadline
        (sort_routes reverse_sort (job_metrics job.id))
      if r.1 then (r.2.1, st.2.1 ++ r.2.2, st.2.2)
      else (r.2.1, st.2.1, st.2.2 ++ [job.id]))
    ((fun _ _ => 3600), [], [])

/-- Seconds allocated by the emitted entries to one (route_key, forecast_id). -/
def entries_time_sum (es : List Entry) (rk : String) (fid : ℕ) : ℚ :=
  ((es.filter (fun e => decide (e.route = rk ∧ e.forecast_id = fid))).map
    (fun e => e.allocated_time)).sum

/-- Seconds recorded against one slot by a slot walk. -/
def allocs_sum (allocs : List (ℕ × ℚ)) (s : ℕ) : ℚ :=
  ((allocs.filter (fun p => decide (p.1 = s))).map (fun p => p.2)).sum

end CarbonAwarePlanner

namespace RoundRobin

/-- One emitted entry of round_robin.py lines 121-132. -/
structure RREntry where
  idx : ℕ
  job_id : ℕ
  node : String
  forecast_id : ℕ
  allocated_time : ℚ
deriving DecidableEq, Repr

/-- The slot scan of _find_available_slots (round_robin.py lines 67-78): walk
enumerated slots in order, stop at the first slot past the deadline, count
`min(capacity, total_needed - allocated)` whenever positive, stop once the need
is met.  Returns the chosen slot indices and the total counted. -/
def find_aux (capN : ℕ → ℚ) (deadline_slot : ℕ) (total_needed : ℚ) :
    List (ℕ × ℕ) → ℚ → List ℕ × ℚ
  | [], allocated => ([], allocated)
  | (slot_idx, slot_time) :: rest, allocated =>
    if deadline_slot < slot_time then ([], allocated)
    else
      let available := min (capN slot_time) (total_needed - allocated)
      if 0 < available then
        let allocated2 := allocated + available
        if total_needed ≤ allocated2 then ([slot_idx], allocated2)
        else
          let r := find_aux capN deadline_slot total_needed rest allocated2
          (slot_idx :: r.1, r.2)
      else find_aux capN deadline_slot total_needed rest allocated

/-- RoundRobin._find_available_slots (lines 48-82): a zero transfer time means
the job cannot run on this node; the deadline is clamped to the largest slot. -/
def find_available_slots (capN : ℕ → ℚ) (time_slots : List ℕ) (transfer_time : ℚ)
    (deadline : Option ℕ) : List ℕ :=
  if transfer_time = 0 then []
  else
    let max_slot := time_slots.foldl max 0
    let deadline_slot := match deadline with
      | some d => min d max_slot
      | none => max_slot
    let r := find_aux capN deadline_slot transfer_time time_slots.enum 0
    if transfer_time ≤ r.2 then r.1 else []

/-- The allocation loop of plan (lines 113-135): walk the chosen indices,
reserve `min(capacity, remaining)` in each, stop once remaining ≤ 0. -/
def allocate_slots (capN : ℕ → ℚ) (time_slots : List ℕ) :
    List ℕ → ℚ → (ℕ → ℚ) × List (ℕ × ℚ)
  | [], _ => (capN, [])
  | slot_idx :: rest, remaining_time =>
    let slot_time := time_slots.getD slot_idx 0
    let allocate := min (capN slot_time) remaining_time
    let capN2 := Function.update capN slot_time (capN slot_time - allocate)
    let remaining2 := remaining_time - allocate
    if remaining2 ≤ 0 then (capN2, [(slot_time, allocate)])
    else
      let r := allocate_slots capN2 time_slots rest remaining2
      (r.1, (slot_time, allocate) :: r.2)

/-- The per-job node loop of plan (lines 99-138) together with _get_next_node
(lines 38-42): each iteration reads `nodes[next_node_idx % len]` and increments
the cursor, so the cursor advances once per route ATTEMPT; the loop runs at
most `len(nodes)` times and stops at the first success. -/
def try_nodes (cap : String → ℕ → ℚ) (nodes : List String) (time_slots : List ℕ)
    (transfer_times : String → ℚ) (deadline : Option ℕ) :
    ℕ → ℕ → (String → ℕ → ℚ) × ℕ × Option (String × List (ℕ × ℚ))
  | next_node_idx, 0 => (cap, next_node_idx, none)
  | next_node_idx, tries + 1 =>
    let node := nodes.getD (next_node_idx % nodes.length) ""
    let idx2 := next_node_idx + 1
    let slot_indices := find_available_slots (cap node) time_slots (transfer_times node) deadline
    if slot_indices.isEmpty then
      try_nodes cap nodes time_slots transfer_times deadline idx2 tries
    else
      let r := allocate_slots (cap node) time_slots slot_indices (transfer_times node)
      (Function.update cap node r.1, idx2, some (node, r.2))

/-- The job ordering of plan lines 89-91 (same key as the greedy planner). -/
def sort_jobs (jobs : List Job) : List Job :=
  jobs.insertionSort job_deadline_le

/-- RoundRobin.plan (lines 84-149) up to output formatting: capacity starts at
3600 s per (node, slot); the cursor starts at 0 and persists across jobs.
`transfer_times j n` models `self.transfer_times.get((j, n), 0)`.
Returns (capacity, next_node_idx, entries, unscheduled job ids). -/
def plan (nodes : List String) (time_slots : List ℕ)
    (transfer_times : ℕ → String → ℚ) (jobs : List Job) :
    (String → ℕ → ℚ) × ℕ × List RREntry × List ℕ :=
  (sort_jobs jobs).enum.foldl
    (fun st p =>
      let job := p.2
      let r := try_nodes st.1 nodes time_slots (transfer_times job.id) job.deadline
        st.2.1 nodes.length
      match r.2.2 with
      | none => (r.1, r.2.1, st.2.2.1, st.2.2.2 ++ [job.id])
      | some (node, allocs) =>
        (r.1, r.2.1, st.2.2.1 ++ allocs.map (fun a => ⟨p.1, job.id, node, a.1, a.2⟩), st.2.2.2))
    ((fun _ _ => 3600), 0, [], [])

end RoundRobin

namespace ShortestJobFirst

/-- Per (job, node) metrics of _precompute_job_metrics (shortest_job_first.py
lines 33-43). -/
structure Metrics where
  transfer_time : ℚ
  carbon_emissions : ℚ
  throughput : ℚ
deriving DecidableEq, Repr

/-- One emitted entry of _add_entry (lines 86-100). -/
structure SJFEntry where
  idx : ℕ
  job_id : ℕ
  node : String
  forecast_id : ℕ
  allocated_time : ℚ
deriving DecidableEq, Repr

/-- `max(1, (int(transfer_time) + 3599) // 3600)` of line 56. -/
def slots_needed_of (transfer_time : ℚ) : ℕ :=
  max 1 ((Int.toNat ⌊transfer_time⌋ + 3599) / 3600)

/-- The capacity check of lines 74-79: every slot of the window must hold at
least the even share. -/
def window_ok (capN : ℕ → ℚ) (time_slots : List ℕ) (start_slot slots_needed : ℕ)
    (time_per_slot : ℚ) : Bool :=
  (List.range slots_needed).all
    (fun i => decide (time_per_slot ≤ capN (time_slots.getD (start_slot + i) 0)))

/-- The deadline clamp of lines 58-65: `min(deadline, max(time_slots))`, with a
missing deadline meaning the largest slot. -/
def sjf_deadline_slot (time_slots : List ℕ) (deadline : Option ℕ) : ℕ :=
  match deadline with
  | some d => min d (time_slots.foldl max 0)
  | none => time_slots.foldl max 0

/-- The acceptance test for one window start (lines 68-82): the window's last
slot meets the deadline and every slot of the window can hold the even share. -/
def sjf_start_ok (capN : ℕ → ℚ) (time_slots : List ℕ) (slots_needed deadline_slot : ℕ)
    (time_per_slot : ℚ) (start_slot : ℕ) : Bool :=
  decide (time_slots.getD (start_slot + slots_needed - 1) 0 ≤ deadline_slot) &&
  window_ok capN time_slots start_slot slots_needed time_per_slot

/-- ShortestJobFirst._find_available_slots (lines 49-84): first-fit search for
`slots_needed` consecutive slots whose last slot meets the deadline and whose
every slot can hold the even share.  `List.range (len + 1 - slots_needed)`
matches Python `range(len - slots_needed + 1)` including its emptiness when
`slots_needed > len`. -/
def find_available_slots (capN : ℕ → ℚ) (time_slots : List ℕ) (m : Option Metrics)
    (deadline : Option ℕ) : List ℕ :=
  match m with
  | none => []
  | some m =>
    if m.transfer_time ≤ 0 then []
    else
      let slots_needed := slots_needed_of m.transfer_time
      let time_per_slot := m.transfer_time / (slots_needed : ℚ)
      match (List.range (time_slots.length + 1 - slots_needed)).find?
          (sjf_start_ok capN time_slots slots_needed
            (sjf_deadline_slot time_slots deadline) time_per_slot) with
      | none => []
      | some start_slot => (List.range slots_needed).map (start_slot + ·)

/-- The _add_entry loop of plan (lines 138-140): subtract the even share from
each chosen slot and emit one entry per slot. -/
def allocate_indices (time_slots : List ℕ) (idx job_id : ℕ) (node : String)
    (time_per_slot : ℚ) :
    (ℕ → ℚ) → List ℕ → (ℕ → ℚ) × List SJFEntry
  | capN, [] => (capN, [])
  | capN, slot_idx :: rest =>
    let slot_time := time_slots.getD slot_idx 0
    let capN2 := Function.update capN slot_time (capN slot_time - time_per_slot)
    let r := allocate_indices time_slots idx job_id node time_per_slot capN2 rest
    (r.1, ⟨idx, job_id, node, slot_time, time_per_slot⟩ :: r.2)

/-- The per-job node loop of plan (lines 124-143): nodes with metrics, sorted
by transfer time; first node whose slot search succeeds wins. -/
def sjf_try (cap : String → ℕ → ℚ) (time_slots : List ℕ)
    (jm : List (String × Metrics)) (idx job_id : ℕ) (deadline : Option ℕ) :
    List String → (String → ℕ → ℚ) × List SJFEntry × Bool
  | [] => (cap, [], false)
  | node :: rest =>
    let m := jm.lookup node
    let slot_indices := find_available_slots (cap node) time_slots m deadline
    match m with
    | none => sjf_try cap time_slots jm idx job_id deadline rest
    | some m =>
      if slot_indices.isEmpty then sjf_try cap time_slots jm idx job_id deadline rest
      else
        let time_per_slot := m.transfer_time / (slot_indices.length : ℚ)
        let r := allocate_indices time_slots idx job_id node time_per_slot (cap node) slot_indices
        (Function.update cap node r.1, r.2, true)

/-- Option-valued minimum transfer time of a job across its nodes (the sort key
of plan lines 107-116); `none` plays `float('inf')`. -/
def min_transfer_time (ms : List (String × Metrics)) : Option ℚ :=
  ms.foldl
    (fun acc p =>
      match acc with
      | none => some p.2.transfer_time
      | some t => some (min t p.2.transfer_time))
    none

/-- Comparison on optional rationals with `none` largest. -/
def opt_le_q (a b : Option ℚ) : Bool :=
  match a, b with
  | some x, some y => x ≤ y
  | some _, none => true
  | none, some _ => false
  | none, none => true

/-- Strict version of `opt_le_q`. -/
def opt_lt_q (a b : Option ℚ) : Bool :=
  match a, b with
  | some x, some y => x < y
  | some _, none => true
  | none, _ => false

/-- The lexicographic job key of plan lines 107-116: (min transfer time across
nodes, deadline), both with missing values largest. -/
def sjf_job_le (job_metrics : ℕ → List (String × Metrics)) (a b : Job) : Bool :=
  let ta := min_transfer_time (job_metrics a.id)
  let tb := min_transfer_time (job_metrics b.id)
  opt_lt_q ta tb || (ta = tb && deadline_le_bool a.deadline b.deadline)

/-- The node ranking of plan lines 124-127: candidate nodes (those with
metrics) stably sorted by transfer time ascending. -/
def node_options (nodes : List String) (jm : List (String × Metrics)) : List String :=
  (nodes.filter (fun n => (jm.lookup n).isSome)).insertionSort
    (fun a b =>
      ((jm.lookup a).map Metrics.transfer_time).getD 0 ≤
      ((jm.lookup b).map Metrics.transfer_time).getD 0)

/-- ShortestJobFirst.plan (lines 102-153) up to output formatting.  Capacity
starts at 3600 s per (node, slot).  Returns (capacity, entries, unscheduled). -/
def plan (nodes : List String) (time_slots : List ℕ)
    (job_metrics : ℕ → List (String × Metrics)) (jobs : List Job) :
    (String → ℕ → ℚ) × List SJFEntry × List ℕ :=
  let jobs_sorted := jobs.insertionSort (fun a b => sjf_job_le job_metrics a b = true)
  jobs_sorted.enum.foldl
    (fun st p =>
      let job := p.2
      let jm := job_metrics job.id
      let r := sjf_try st.1 time_slots jm p.1 job.id job.deadline (node_options nodes jm)
      if r.2.2 then (r.1, st.2.1 ++ r.2.1, st.2.2)
      else (r.1, st.2.1, st.2.2 ++ [job.id]))
    ((fun _ _ => 3600), [], [])

/-- Seconds allocated by SJF entries to one (node, forecast_id). -/
def sjf_entries_time_sum (es : List SJFEntry) (node : String) (fid : ℕ) : ℚ :=
  ((es.filter (fun e => decide (e.node = node ∧ e.forecast_id = fid))).map
    (fun e => e.allocated_time)).sum

end ShortestJobFirst

namespace WorstCasePlanner

/-- One association row as consumed by worst_case_planner.py. -/
structure Row where
  job_id : ℕ
  node : String
  forecast_id : ℕ
  transfer_time : ℚ
  carbon_emissions : ℚ
  throughput : ℚ
deriving DecidableEq, Repr

/-- One emitted entry of _allocate_to_slot (lines 144-156). -/
structure WCEntry where
  job_id : ℕ
  node : String
  forecast_id : ℕ
  transfer_time : ℚ
  carbon_emissions : ℚ
deriving DecidableEq, Repr

/-- The slot ordering of plan line 47: carbon emissions descending (stable). -/
def sort_slots_desc (rows : List Row) : List Row :=
  rows.insertionSort (fun a b => b.carbon_emissions ≤ a.carbon_emissions)

/-- The single-slot pass of _allocate_job_continuous (lines 84-88): the first
row, in carbon-descending order, whose slot still holds the whole job.  No
deadline is consulted anywhere in this planner. -/
def find_single_slot (capN : ℕ → ℚ) (required_time : ℚ) : List Row → Option Row
  | [] => none
  | row :: rest =>
    if required_time ≤ capN row.forecast_id then some row
    else find_single_slot capN required_time rest

/-- The consecutive grouping of _allocate_across_multiple_slots (lines 101-114). -/
def group_consecutive_aux (current : List ℕ) : List ℕ → List (List ℕ)
  | [] => if current.isEmpty then [] else [current]
  | slot :: rest =>
    if current.isEmpty then group_consecutive_aux [slot] rest
    else if slot = current.getLast?.getD 0 + 1 then
      group_consecutive_aux (current ++ [slot]) rest
    else current :: group_consecutive_aux [slot] rest

/-- `consecutive_sequences` built from the sorted unique slots. -/
def consecutive_sequences (slots : List ℕ) : List (List ℕ) :=
  group_consecutive_aux [] slots

/-- The allocation loop of lines 120-138: pour the remaining need into the
sequence slot by slot. -/
def allocate_sequence (sorted_slots : List Row) (job_id : ℕ) (node : String) :
    (ℕ → ℚ) → List ℕ → ℚ → (ℕ → ℚ) × List WCEntry
  | capN, [], _ => (capN, [])
  | capN, slot :: rest, remaining =>
    if remaining ≤ 0 then (capN, [])
    else
      let alloc_in_slot := min remaining (capN slot)
      if 0 < alloc_in_slot then
        match sorted_slots.find? (fun r => decide (r.forecast_id = slot)) with
        | none => (capN, [])
        | some row =>
          let capN2 := Function.update capN slot (capN slot - alloc_in_slot)
          let r := allocate_sequence sorted_slots job_id node capN2 rest (remaining - alloc_in_slot)
          (r.1, ⟨job_id, node, slot, alloc_in_slot, row.carbon_emissions⟩ :: r.2)
      else allocate_sequence sorted_slots job_id node capN rest remaining

/-- _allocate_across_multiple_slots (lines 96-142): first consecutive sequence
with enough total capacity receives the job. -/
def allocate_across_multiple_slots (capN : ℕ → ℚ) (sorted_slots : List Row)
    (job_id : ℕ) (node : String) (required_time : ℚ) :
    Option ((ℕ → ℚ) × List WCEntry) :=
  let slots := ((sorted_slots.map Row.forecast_id).dedup).insertionSort (· ≤ ·)
  let seqs := consecutive_sequences slots
  (seqs.find? (fun seq => decide (required_time ≤ (seq.map capN).sum))).map
    (fun seq => allocate_sequence sorted_slots job_id node capN seq required_time)

/-- _allocate_job_continuous (lines 78-94).  `none` is a failed allocation. -/
def allocate_job_continuous (capN : ℕ → ℚ) (sorted_slots : List Row)
    (job_id : ℕ) (node : String) : Option ((ℕ → ℚ) × List WCEntry) :=
  match sorted_slots.filter (fun r => decide (r.job_id = job_id)) with
  | [] => none
  | first :: _ =>
    let required_time := first.transfer_time
    match find_single_slot capN required_time sorted_slots with
    | some row =>
      some (Function.update capN row.forecast_id (capN row.forecast_id - required_time),
        [⟨job_id, node, row.forecast_id, required_time, row.carbon_emissions⟩])
    | none =>
      if 3600 < required_time then
        allocate_across_multiple_slots capN sorted_slots job_id node required_time
      else none

end WorstCasePlanner

namespace MilpGreenPlanner

/-- A decision-variable key (job_id, forecast_id, route_key). -/
structure Key where
  job_id : ℕ
  forecast_id : ℕ
  route_key : String
deriving DecidableEq, Repr

/-- One row of the MultiIndexed associations table, as read through
`self.associations_df.loc[key]`. -/
structure TRow where
  carbon_emissions : ℚ
  throughput : ℚ
  transfer_time : ℚ
deriving DecidableEq, Repr

/-- The valid-combination scan of MilpGreenPlanner.__init__ (milp_green.py
lines 136-152): for every job, every slot up to its deadline and EVERY route,
the row is read with `self.associations_df.loc[key]`, which raises `KeyError`
when the row is absent: modelled by `none`. -/
def valid_combinations (jobs : List Job) (time_slots : List ℕ)
    (route_list : List String) (max_slot : ℕ)
    (table : ℕ → ℕ → String → Option TRow) : Option (List Key) :=
  jobs.foldlM
    (fun acc j =>
      let deadline := j.deadline.getD max_slot
      time_slots.foldlM
        (fun acc2 t =>
          if deadline < t then some acc2
          else
            route_list.foldlM
              (fun acc3 r =>
                match table j.id t r with
                | none => none
                | some _ => some (acc3 ++ [⟨j.id, t, r⟩]))
              acc2)
        acc)
    []

/-- One reconstructed schedule entry (lines 221-234). -/
structure MEntry where
  job_id : ℕ
  forecast_id : ℕ
  route : String
  allocated_fraction : ℚ
  allocated_time : ℚ
  carbon_emissions : ℚ
deriving DecidableEq, Repr

/-- MilpGreenPlanner._generate_schedule (lines 213-236): an entry for every key
whose solved value exceeds 1e-6, with `allocated_time = x * 3600`. -/
def generate_schedule (valid : List Key) (x carbon : Key → ℚ) : List MEntry :=
  valid.foldl
    (fun schedule key =>
      if 1/1000000 < x key then
        schedule ++ [⟨key.job_id, key.forecast_id, key.route_key, x key,
          x key * 3600, x key * carbon key⟩]
      else schedule)
    []

/-- The reconstruction the spec describes (section 4.6.5): threshold 1e-3 and
`allocated_seconds = x * transfer_time` clipped to 3600. -/
def claim_reconstruction (valid : List Key) (x transfer_time carbon : Key → ℚ) :
    List MEntry :=
  valid.foldl
    (fun schedule key =>
      if 1/1000 < x key then
        schedule ++ [⟨key.job_id, key.forecast_id, key.route_key, x key,
          min (x key * transfer_time key) 3600, x key * carbon key⟩]
      else schedule)
    []

end MilpGreenPlanner

/-! ### Helper lemmas -/

theorem foldl_add_range (g : ℕ → ℚ) :
    ∀ (n : ℕ) (a : ℚ),
      (List.range n).foldl (fun acc k => acc + g k) a = a + ∑ k ∈ Finset.range n, g k := by
  intro n
  induction n with
  | zero => intro a; simp
  | succ n ih =>
    intro a
    rw [List.range_succ, List.foldl_append, Finset.sum_range_succ, ih]
    simp [add_assoc]

theorem hop_loop_eq_claim (E T_h : ℚ) (N fid H : ℕ) (ci : ℕ → ℚ) :
    DataGenerator.hop_emissions_loop (E / T_h) T_h N fid H ci
      = DataGenerator.claim_hop_formula E T_h N fid H ci := by
  simp only [DataGenerator.hop_emissions_loop, DataGenerator.claim_hop_formula]
  rw [foldl_add_range (fun k =>
    (if k = N - 1 then E / T_h * (T_h - (N - 1 : ℕ)) / 3600000 else E / T_h / 3600000) *
      ci ((fid + k) % H))]
  rw [zero_add]
  refine Finset.sum_congr rfl fun k _ => ?_
  by_cases h : k = N - 1
  · rw [if_pos h, if_pos h]
  · rw [if_neg h, if_neg h]; ring

theorem foldlM_option_sum {α : Type} (f : α → Option ℚ) :
    ∀ (l : List α) (a : ℚ), (∀ x ∈ l, (f x).isSome) →
      l.foldlM (fun acc x => (f x).map (acc + ·)) a
        = some (a + (l.map (fun x => (f x).getD 0)).sum) := by
  intro l
  induction l with
  | nil => intro a _; simp [List.foldlM]
  | cons x xs ih =>
    intro a h
    obtain ⟨v, hv⟩ := Option.isSome_iff_exists.mp (h x (by simp))
    rw [List.foldlM_cons, hv]
    simp only [Option.map_some']
    exact (ih (a + v) (fun y hy => h y (List.mem_cons_of_mem _ hy))).trans
      (by simp [hv, add_assoc])

theorem hop_emission_eq_claim (route_key source_node destination_name : String)
    (route_routers route_links : List (String × String)) (ci : String → ℕ → ℚ)
    (energy : DataGenerator.EnergyData) (transfer_hours : ℚ)
    (num_hours forecast_id forecast_len n i : ℕ) (ip : String)
    (h : (energy.hosts.lookup
        (DataGenerator.host_name_of_hop route_key source_node destination_name
          route_routers n i ip)).isSome) :
    DataGenerator.hop_emission route_key source_node destination_name route_routers route_links
        ci energy transfer_hours num_hours forecast_id forecast_len n i ip
      = some (DataGenerator.claim_hop_formula
          (DataGenerator.hop_energy_total route_key source_node destination_name
            route_routers route_links energy n i ip)
          transfer_hours num_hours forecast_id forecast_len (ci ip)) := by
  obtain ⟨v, hv⟩ := Option.isSome_iff_exists.mp h
  simp only [DataGenerator.hop_emission, DataGenerator.hop_energy_total, hv, Option.getD_some]
  rw [← hop_loop_eq_claim]

/-! ### C1 -/

/-- C1: for a SimOutput with transfer duration `T > 0` (and every hop host name
present, without which the computation raises, see C9), the association
builder's carbon_emissions equals the spec formula: the sum over hops of
`E_hop / T_h` spread over `N = min(⌈T_h⌉, H)` hours starting at forecast_id,
hour `k` using the ci at `(forecast_id + k) mod H`, the last hour weighted
`T_h - (N-1)` and earlier hours weighted 1, each hour converted to kWh by
dividing by 3.6e6 before multiplying by the ci. -/
theorem C1_emissions_match_spec_formula
    (route_key : String) (forecast_id forecast_len : ℕ)
    (traceroute : List DataGenerator.Hop)
    (route_routers route_links : List (String × String))
    (ci : String → ℕ → ℚ) (energy : DataGenerator.EnergyData)
    (hT : 0 < energy.transfer_duration)
    (hhosts : ∀ p ∈ traceroute.enum,
      (energy.hosts.lookup
        (DataGenerator.host_name_of_hop route_key
          ((DataGenerator.route_key_split route_key).getD 0 "")
          ((DataGenerator.route_key_split route_key).getD 1 "")
          route_routers traceroute.length p.1 p.2.ip)).isSome) :
    DataGenerator.emissions_for_path_forecast route_key forecast_id forecast_len traceroute
        route_routers route_links ci energy
      = some ((traceroute.enum.map (fun p =>
          DataGenerator.claim_hop_formula
            (DataGenerator.hop_energy_total route_key
              ((DataGenerator.route_key_split route_key).getD 0 "")
              ((DataGenerator.route_key_split route_key).getD 1 "")
              route_routers route_links energy traceroute.length p.1 p.2.ip)
            (energy.transfer_duration / 3600)
            (min (Int.toNat ⌈energy.transfer_duration / 3600⌉) forecast_len)
            forecast_id forecast_len (ci p.2.ip))).sum) := by
  have hsome : ∀ p ∈ traceroute.enum,
      (DataGenerator.hop_emission route_key
        ((DataGenerator.route_key_split route_key).getD 0 "")
        ((DataGenerator.route_key_split route_key).getD 1 "")
        route_routers route_links ci energy (energy.transfer_duration / 3600)
        (min (Int.toNat ⌈energy.transfer_duration / 3600⌉) forecast_len)
        forecast_id forecast_len traceroute.length p.1 p.2.ip).isSome := by
    intro p hp
    rw [hop_emission_eq_claim _ _ _ _ _ _ _ _ _ _ _ _ _ _ (hhosts p hp)]
    rfl
  simp only [DataGenerator.emissions_for_path_forecast]
  rw [foldlM_option_sum _ traceroute.enum 0 hsome, zero_add]
  congr 1
  refine congrArg List.sum (List.map_congr_left fun p hp => ?_)
  rw [hop_emission_eq_claim _ _ _ _ _ _ _ _ _ _ _ _ _ _ (hhosts p hp), Option.getD_some]

/-- Witness for C1 at a concrete input: route `A_B` with two hops, both host
names present, transfer duration 3600 s, horizon 2. -/
theorem C1_emissions_match_spec_formula_witness :
    (0 : ℚ) < (3600 : ℚ) ∧
    DataGenerator.emissions_for_path_forecast "A_B" 0 2 [⟨"ip0"⟩, ⟨"ip1"⟩] [] []
        (fun _ _ => 100) ⟨3600, [("A", 720), ("B", 360)], [], 1080, 0, 1000⟩
      = some ((([⟨"ip0"⟩, ⟨"ip1"⟩] : List DataGenerator.Hop).enum.map (fun p =>
          DataGenerator.claim_hop_formula
            (DataGenerator.hop_energy_total "A_B"
              ((DataGenerator.route_key_split "A_B").getD 0 "")
              ((DataGenerator.route_key_split "A_B").getD 1 "")
              [] [] ⟨3600, [("A", 720), ("B", 360)], [], 1080, 0, 1000⟩
              ([⟨"ip0"⟩, ⟨"ip1"⟩] : List DataGenerator.Hop).length p.1 p.2.ip)
            ((3600 : ℚ) / 3600)
            (min (Int.toNat ⌈(3600 : ℚ) / 3600⌉) 2)
            0 2 ((fun _ _ => (100 : ℚ)) p.2.ip))).sum) :=
  ⟨by norm_num,
   C1_emissions_match_spec_formula "A_B" 0 2 [⟨"ip0"⟩, ⟨"ip1"⟩] [] []
     (fun _ _ => 100) ⟨3600, [("A", 720), ("B", 360)], [], 1080, 0, 1000⟩
     (by norm_num) (by decide)⟩

/-! ### C9 -/

/-- C9 (code bug): the claim says an absent host name is treated as 0 joules
and the computation still returns a number.  In the code the host lookup is
`energy_data['hosts'].get(host_name)` with no default, so an absent host name
makes `host_energy + link_energy` raise a TypeError (modelled: `none`), while
an absent LINK name does have the default `0.0`.  First conjunct: hosts map
missing the source endpoint name `A` makes the computation fail.  Second
conjunct: with all host names present the computation succeeds even though the
links map is empty (the intermediate hop link name is absent). -/
theorem C9_absent_host_name_raises :
    DataGenerator.emissions_for_path_forecast "A_B" 0 2 [⟨"ip0"⟩, ⟨"ip1"⟩, ⟨"ip2"⟩]
        [("ip1", "r1")] [] (fun _ _ => 100)
        ⟨3600, [("B", 360), ("r1", 36)], [], 396, 0, 1000⟩ = none
  ∧ (DataGenerator.emissions_for_path_forecast "A_B" 0 2 [⟨"ip0"⟩, ⟨"ip1"⟩, ⟨"ip2"⟩]
        [("ip1", "r1")] [] (fun _ _ => 100)
        ⟨3600, [("A", 720), ("B", 360), ("r1", 36)], [], 1116, 0, 1000⟩).isSome = true := by
  exact ⟨by decide, by decide⟩

/-! ### Rollback lemmas (greedy planner) -/

namespace CarbonAwarePlanner

theorem rollback_nil (cap : ℕ → ℚ) : rollback cap [] = cap := rfl

theorem rollback_cons (cap : ℕ → ℚ) (p : ℕ × ℚ) (l : List (ℕ × ℚ)) :
    rollback cap (p :: l) = rollback (Function.update cap p.1 (cap p.1 + p.2)) l := rfl

theorem add_back_comm (cap : ℕ → ℚ) (a b : ℕ × ℚ) :
    Function.update (Function.update cap a.1 (cap a.1 + a.2)) b.1
        ((Function.update cap a.1 (cap a.1 + a.2)) b.1 + b.2)
      = Function.update (Function.update cap b.1 (cap b.1 + b.2)) a.1
        ((Function.update cap b.1 (cap b.1 + b.2)) a.1 + a.2) := by
  funext x
  rcases eq_or_ne a.1 b.1 with hab | hab
  · rcases eq_or_ne x a.1 with hx | hx
    · subst hx
      simp [hab, Function.update_apply]
      ring
    · simp [Function.update_apply, hx, hab ▸ hx]
  · rcases eq_or_ne x a.1 with hxa | hxa
    · subst hxa
      simp [Function.update_apply, hab, Ne.symm hab]
    · rcases eq_or_ne x b.1 with hxb | hxb
      · subst hxb
        simp [Function.update_apply, hab, Ne.symm hab, hxa]
      · simp [Function.update_apply, hxa, hxb]

theorem rollback_add_back (a : ℕ × ℚ) :
    ∀ (l : List (ℕ × ℚ)) (cap : ℕ → ℚ),
      rollback (Function.update cap a.1 (cap a.1 + a.2)) l
        = Function.update (rollback cap l) a.1 ((rollback cap l) a.1 + a.2) := by
  intro l
  induction l with
  | nil => intro cap; rfl
  | cons q l ih =>
    intro cap
    rw [rollback_cons, rollback_cons, ← add_back_comm, ih]

/-- A slot walk followed by the rollback of its recorded allocations restores
the capacity exactly. -/
theorem find_slots_rollback :
    ∀ (slots : List ℕ) (cap : ℕ → ℚ) (deadline : Option ℕ) (remaining : ℚ),
      rollback (find_slots cap slots deadline remaining).1
        (find_slots cap slots deadline remaining).2.1 = cap := by
  intro slots
  induction slots with
  | nil => intro cap deadline remaining; rfl
  | cons slot rest ih =>
    intro cap deadline remaining
    simp only [find_slots]
    split
    · exact ih cap deadline remaining
    · split
      · rfl
      · split
        · dsimp only
          rw [rollback_cons, rollback_add_back, ih]
          rw [Function.update_same, Function.update_idem]
          rw [sub_add_cancel, Function.update_eq_self]
        · exact ih cap deadline remaining

/-- A failed _allocate_job leaves the capacity map exactly as it was. -/
theorem allocate_job_failed_cap :
    ∀ (routes : List (String × Metrics)) (cap : String → ℕ → ℚ) (time_slots : List ℕ)
      (job_id : ℕ) (deadline : Option ℕ),
      (allocate_job cap time_slots job_id deadline routes).1 = false →
      (allocate_job cap time_slots job_id deadline routes).2.1 = cap := by
  intro routes
  induction routes with
  | nil => intro cap ts j d _; rfl
  | cons rm rest ih =>
    intro cap ts j d hfail
    simp only [allocate_job] at hfail ⊢
    by_cases hsucc : (find_slots (cap rm.1) ts d rm.2.transfer_time).2.2 ≤ 0
    · rw [if_pos hsucc] at hfail
      simp at hfail
    · rw [if_neg hsucc] at hfail ⊢
      have hcap : Function.update cap rm.1
          (rollback (find_slots (cap rm.1) ts d rm.2.transfer_time).1
            (find_slots (cap rm.1) ts d rm.2.transfer_time).2.1) = cap := by
        rw [find_slots_rollback, Function.update_eq_self]
      rw [hcap] at hfail ⊢
      exact ih cap ts j d hfail

end CarbonAwarePlanner

/-! ### C8 -/

/-- C8: a failed route attempt of the greedy carbon planner leaves the capacity
map unchanged: the rollback of a slot walk restores the capacity exactly, and a
_allocate_job call that returns False returns the capacity it was given. -/
theorem C8_failed_attempt_rolls_back :
    (∀ (slots : List ℕ) (cap : ℕ → ℚ) (deadline : Option ℕ) (remaining : ℚ),
      CarbonAwarePlanner.rollback (CarbonAwarePlanner.find_slots cap slots deadline remaining).1
        (CarbonAwarePlanner.find_slots cap slots deadline remaining).2.1 = cap)
  ∧ (∀ (routes : List (String × CarbonAwarePlanner.Metrics)) (cap : String → ℕ → ℚ)
      (time_slots : List ℕ) (job_id : ℕ) (deadline : Option ℕ),
      (CarbonAwarePlanner.allocate_job cap time_slots job_id deadline routes).1 = false →
      (CarbonAwarePlanner.allocate_job cap time_slots job_id deadline routes).2.1 = cap) :=
  ⟨CarbonAwarePlanner.find_slots_rollback, CarbonAwarePlanner.allocate_job_failed_cap⟩

/-- Witness for C8: a route attempt on a full route (capacity 0 everywhere)
fails and hands back the untouched capacity map. -/
theorem C8_failed_attempt_rolls_back_witness :
    (CarbonAwarePlanner.allocate_job (fun _ _ => 0) [0, 1] 1 (some 1)
        [("A_B", ⟨"A", "B", 100, 1, 1800⟩)]).1 = false
  ∧ (CarbonAwarePlanner.allocate_job (fun _ _ => 0) [0, 1] 1 (some 1)
        [("A_B", ⟨"A", "B", 100, 1, 1800⟩)]).2.1 = (fun _ _ => 0) := by
  have h : (CarbonAwarePlanner.allocate_job (fun _ _ => (0:ℚ)) [0, 1] 1 (some 1)
      [("A_B", ⟨"A", "B", 100, 1, 1800⟩)]).1 = false := by
    norm_num [CarbonAwarePlanner.allocate_job, CarbonAwarePlanner.find_slots,
      CarbonAwarePlanner.slot_skipped, CarbonAwarePlanner.rollback]
  exact ⟨h, C8_failed_attempt_rolls_back.2 [("A_B", ⟨"A", "B", 100, 1, 1800⟩)]
    (fun _ _ => 0) [0, 1] 1 (some 1) h⟩

/-! ### C2 -/

namespace CarbonAwarePlanner

theorem find_slots_allocs_not_skipped :
    ∀ (slots : List ℕ) (cap : ℕ → ℚ) (deadline : Option ℕ) (remaining : ℚ) (p : ℕ × ℚ),
      p ∈ (find_slots cap slots deadline remaining).2.1 →
      slot_skipped deadline p.1 = false := by
  intro slots
  induction slots with
  | nil => intro cap d r p hp; simp [find_slots] at hp
  | cons slot rest ih =>
    intro cap d r p hp
    simp only [find_slots] at hp
    by_cases hskip : slot_skipped d slot = true
    · rw [if_pos hskip] at hp
      exact ih _ _ _ _ hp
    · rw [if_neg hskip] at hp
      by_cases hrem : r ≤ 0
      · rw [if_pos hrem] at hp
        simp at hp
      · rw [if_neg hrem] at hp
        by_cases havail : 0 < cap slot
        · rw [if_pos havail] at hp
          dsimp only at hp
          rcases List.mem_cons.mp hp with h | h
          · subst h
            simpa using hskip
          · exact ih _ _ _ _ h
        · rw [if_neg havail] at hp
          exact ih _ _ _ _ hp

theorem allocate_job_entries :
    ∀ (routes : List (String × Metrics)) (cap : String → ℕ → ℚ) (ts : List ℕ)
      (j : ℕ) (d : Option ℕ) (e : Entry),
      e ∈ (allocate_job cap ts j d routes).2.2 →
      e.deadline = d ∧ slot_skipped d e.forecast_id = false := by
  intro routes
  induction routes with
  | nil => intro cap ts j d e he; simp [allocate_job] at he
  | cons rm rest ih =>
    intro cap ts j d e he
    simp only [allocate_job] at he
    by_cases hsucc : (find_slots (cap rm.1) ts d rm.2.transfer_time).2.2 ≤ 0
    · rw [if_pos hsucc] at he
      dsimp only at he
      obtain ⟨p, hp, rfl⟩ := List.mem_map.mp he
      exact ⟨rfl, find_slots_allocs_not_skipped ts _ d _ p hp⟩
    · rw [if_neg hsucc] at he
      exact ih _ _ _ _ _ he

theorem plan_entries_deadline_aux :
    ∀ (l : List Job) (ts : List ℕ) (jm : ℕ → List (String × Metrics)) (rev : Bool)
      (st : (String → ℕ → ℚ) × List Entry × List ℕ),
      (∀ e ∈ st.2.1, ∀ dl, e.deadline = some dl → e.forecast_id ≤ dl) →
      ∀ e ∈ (List.foldl
          (fun st job =>
            let r := allocate_job st.1 ts job.id job.deadline (sort_routes rev (jm job.id))
            if r.1 then (r.2.1, st.2.1 ++ r.2.2, st.2.2)
            else (r.2.1, st.2.1, st.2.2 ++ [job.id]))
          st l).2.1,
        ∀ dl, e.deadline = some dl → e.forecast_id ≤ dl := by
  intro l
  induction l with
  | nil =>
    intro ts jm rev st hst
    simpa using hst
  | cons job rest ih =>
    intro ts jm rev st hst
    rw [List.foldl_cons]
    refine ih ts jm rev _ ?_
    dsimp only
    by_cases hr : (allocate_job st.1 ts job.id job.deadline (sort_routes rev (jm job.id))).1 = true
    · rw [if_pos hr]
      intro e he dl hdl
      rcases List.mem_append.mp he with h | h
      · exact hst e h dl hdl
      · have h2 := allocate_job_entries _ _ _ _ _ e h
        have hjd : job.deadline = some dl := h2.1.symm.trans hdl
        have h3 := h2.2
        rw [hjd] at h3
        simp [slot_skipped] at h3
        omega
    · rw [if_neg hr]
      intro e he dl hdl
      exact hst e he dl hdl

end CarbonAwarePlanner

/-- C2 counterexample: the claim quantifies over EVERY planner, but
WorstCasePlanner never consults the deadline.  Concretely, for the single job 1
with deadline_hour 0, two association rows at forecast hours 0 and 1 with the
hour 1 row dirtier, and fresh capacity, _allocate_job_continuous places the
whole 1000 s at forecast hour 1 — past the deadline 0. -/
theorem C2_counterexample_worst_case_ignores_deadline :
    (Job.mk 1 5 (some 0)).deadline = some 0
  ∧ ((WorstCasePlanner.allocate_job_continuous (fun _ => 3600)
      (WorstCasePlanner.sort_slots_desc
        [⟨1, "A_B", 0, 1000, 10, 1⟩, ⟨1, "A_B", 1, 1000, 99, 1⟩])
      (Job.mk 1 5 (some 0)).id "A_B").map (fun r => r.2.map WorstCasePlanner.WCEntry.forecast_id))
      = some [1]
  ∧ ¬ ((1 : ℕ) ≤ 0) := by
  refine ⟨rfl, ?_, by omega⟩
  norm_num [WorstCasePlanner.allocate_job_continuous, WorstCasePlanner.sort_slots_desc,
    WorstCasePlanner.find_single_slot, List.insertionSort, List.orderedInsert]

/-- C2 (amended): every entry emitted by the greedy carbon planner respects the
deadline of its job; the WorstCasePlanner, which never reads the deadline, can
allocate past it (see the counterexample). -/
theorem C2_greedy_entries_respect_deadline (ts : List ℕ)
    (jm : ℕ → List (String × CarbonAwarePlanner.Metrics)) (rev : Bool) (jobs : List Job) :
    ∀ e ∈ (CarbonAwarePlanner.plan ts jm rev jobs).2.1,
      ∀ dl, e.deadline = some dl → e.forecast_id ≤ dl := by
  intro e he
  simp only [CarbonAwarePlanner.plan] at he
  exact CarbonAwarePlanner.plan_entries_deadline_aux (CarbonAwarePlanner.sort_jobs jobs)
    ts jm rev _ (by simp) e he

/-- Witness for C2 at a concrete input: the single emitted entry sits at
forecast hour 0, within its deadline 1. -/
theorem C2_greedy_entries_respect_deadline_witness :
    (⟨1, "A_B", 0, 1800, 100, 1800, some 1⟩ : CarbonAwarePlanner.Entry) ∈
      (CarbonAwarePlanner.plan [0, 1]
        (fun j => if j = 1 then [("A_B", ⟨"A", "B", 100, 1, 1800⟩)] else [])
        false [⟨1, 5, some 1⟩]).2.1
  ∧ (0 : ℕ) ≤ 1 := by
  have hmem : (⟨1, "A_B", 0, 1800, 100, 1800, some 1⟩ : CarbonAwarePlanner.Entry) ∈
      (CarbonAwarePlanner.plan [0, 1]
        (fun j => if j = 1 then [("A_B", ⟨"A", "B", 100, 1, 1800⟩)] else [])
        false [⟨1, 5, some 1⟩]).2.1 := by
    norm_num [CarbonAwarePlanner.plan, CarbonAwarePlanner.sort_jobs,
      CarbonAwarePlanner.sort_routes, CarbonAwarePlanner.allocate_job,
      CarbonAwarePlanner.find_slots, CarbonAwarePlanner.slot_skipped,
      List.insertionSort, List.orderedInsert, Function.update]
  exact ⟨hmem, C2_greedy_entries_respect_deadline [0, 1]
    (fun j => if j = 1 then [("A_B", ⟨"A", "B", 100, 1, 1800⟩)] else [])
    false [⟨1, 5, some 1⟩] _ hmem 1 rfl⟩

/-! ### C4 -/

namespace CarbonAwarePlanner

theorem find_slots_allocs_sublist :
    ∀ (slots : List ℕ) (cap : ℕ → ℚ) (deadline : Option ℕ) (remaining : ℚ),
      ((find_slots cap slots deadline remaining).2.1.map Prod.fst).Sublist slots := by
  intro slots
  induction slots with
  | nil => intro cap d r; simp [find_slots]
  | cons slot rest ih =>
    intro cap d r
    simp only [find_slots]
    by_cases hskip : slot_skipped d slot = true
    · rw [if_pos hskip]
      exact (ih _ _ _).cons slot
    · rw [if_neg hskip]
      by_cases hrem : r ≤ 0
      · rw [if_pos hrem]
        simp
      · rw [if_neg hrem]
        by_cases havail : 0 < cap slot
        · rw [if_pos havail]
          dsimp only
          rw [List.map_cons]
          exact (ih _ _ _).cons₂ slot
        · rw [if_neg havail]
          exact (ih _ _ _).cons slot

end CarbonAwarePlanner

/-- C4 counterexample: H = 2, ci = [200, 50], one route, job transfer time
1800 s, deadline 1.  The claim expects the entire 1800 s in forecast hour 1
(the cleaner hour).  The code walks the slots of the chosen route in ascending
forecast order, never reading the per-slot carbon value (the mode only orders
the ROUTES, by the carbon metric of the first association row), so the whole
1800 s lands in forecast hour 0. -/
theorem C4_counterexample_greedy_min_takes_hour_zero :
    (CarbonAwarePlanner.plan [0, 1]
        (fun j => if j = 1 then [("A_B", ⟨"A", "B", 200, 1, 1800⟩)] else [])
        false [⟨1, 5, some 1⟩]).2.1
      = [⟨1, "A_B", 0, 1800, 200, 1800, some 1⟩]
  ∧ (0 : ℕ) ≠ 1 := by
  refine ⟨?_, by omega⟩
  norm_num [CarbonAwarePlanner.plan, CarbonAwarePlanner.sort_jobs,
    CarbonAwarePlanner.sort_routes, CarbonAwarePlanner.allocate_job,
    CarbonAwarePlanner.find_slots, CarbonAwarePlanner.slot_skipped,
    List.insertionSort, List.orderedInsert, Function.update]

/-- C4 (amended): the greedy planner fills the slots of the chosen route in
ascending forecast_id order — NOT sorted by per-slot carbon_emissions; in the
spec scenario (H=2, transfer 1800 s, deadline 1) the entire 1800 s is placed in
forecast hour 0.  First conjunct: on an ascending slot list, the recorded
allocations are in strictly ascending forecast order.  Second conjunct: the
concrete scenario. -/
theorem C4_greedy_fills_slots_in_forecast_order :
    (∀ (cap : ℕ → ℚ) (slots : List ℕ) (deadline : Option ℕ) (remaining : ℚ),
      List.Pairwise (· < ·) slots →
      List.Pairwise (· < ·)
        ((CarbonAwarePlanner.find_slots cap slots deadline remaining).2.1.map Prod.fst))
  ∧ (CarbonAwarePlanner.plan [0, 1]
        (fun j => if j = 1 then [("A_B", ⟨"A", "B", 200, 1, 1800⟩)] else [])
        false [⟨1, 5, some 1⟩]).2.1
      = [⟨1, "A_B", 0, 1800, 200, 1800, some 1⟩] := by
  constructor
  · intro cap slots deadline remaining hsorted
    exact hsorted.sublist (CarbonAwarePlanner.find_slots_allocs_sublist slots cap deadline remaining)
  · norm_num [CarbonAwarePlanner.plan, CarbonAwarePlanner.sort_jobs,
      CarbonAwarePlanner.sort_routes, CarbonAwarePlanner.allocate_job,
      CarbonAwarePlanner.find_slots, CarbonAwarePlanner.slot_skipped,
      List.insertionSort, List.orderedInsert, Function.update]

/-- Witness for C4 (amended) at a concrete input. -/
theorem C4_greedy_fills_slots_in_forecast_order_witness :
    List.Pairwise (· < ·) [0, 1]
  ∧ List.Pairwise (· < ·)
      ((CarbonAwarePlanner.find_slots (fun _ => 3600) [0, 1] none 5000).2.1.map Prod.fst) :=
  ⟨by decide, C4_greedy_fills_slots_in_forecast_order.1 (fun _ => 3600) [0, 1] none 5000 (by decide)⟩


/-! ### C5 -/

/-- C5 counterexample: the cursor advances once per route ATTEMPT, not once per
job.  With two routes, one time slot, and a job that cannot run on R1
(transfer time 0) but runs on R2, the job IS placed (on R2, second attempt) yet
the cursor ends at 2 — two positions past its pre-job value 0, not one. -/
theorem C5_counterexample_cursor_advances_per_attempt :
    (RoundRobin.plan ["R1", "R2"] [0]
        (fun _ n => if n = "R2" then 100 else 0) [⟨1, 5, some 0⟩]).2.1 = 2
  ∧ (RoundRobin.plan ["R1", "R2"] [0]
        (fun _ n => if n = "R2" then 100 else 0) [⟨1, 5, some 0⟩]).2.2.1
      = [⟨0, 1, "R2", 0, 100⟩]
  ∧ (2 : ℕ) ≠ 0 + 1 := by
  refine ⟨?_, ?_, by omega⟩ <;>
  simp [RoundRobin.plan, RoundRobin.sort_jobs, RoundRobin.try_nodes,
    RoundRobin.find_available_slots, RoundRobin.find_aux, RoundRobin.allocate_slots,
    List.insertionSort, List.orderedInsert, job_deadline_le, deadline_le_bool,
    Function.update, List.enum, List.enumFrom,
    show ¬(100:ℚ) = 0 by norm_num, show min (3600:ℚ) 100 = 100 by norm_num,
    show (0:ℚ) < 100 by norm_num, show (100:ℚ) - 100 = 0 by norm_num]

set_option maxHeartbeats 4000000 in
/-- C5 (amended): the cursor advances by one for every route attempt, hence by
exactly one for a job placed on the first route tried.  First conjunct: when
the slot search succeeds on the first attempted node the cursor after the job
is its previous value plus one.  Remaining conjuncts: the spec scenario (three
routes, three identical jobs, ample capacity) places J1 on R1, J2 on R2, J3 on
R3, each on its first try, with the final cursor at 3. -/
theorem C5_cursor_one_step_on_first_try_success :
    (∀ (cap : String → ℕ → ℚ) (nodes : List String) (ts : List ℕ)
      (tt : String → ℚ) (d : Option ℕ) (idx0 tries : ℕ),
      0 < tries →
      RoundRobin.find_available_slots (cap (nodes.getD (idx0 % nodes.length) "")) ts
          (tt (nodes.getD (idx0 % nodes.length) "")) d ≠ [] →
      (RoundRobin.try_nodes cap nodes ts tt d idx0 tries).2.1 = idx0 + 1)
  ∧ (RoundRobin.plan ["R1", "R2", "R3"] [0, 1, 2] (fun _ _ => 600)
        [⟨1, 5, some 2⟩, ⟨2, 5, some 2⟩, ⟨3, 5, some 2⟩]).2.2.1
      = [⟨0, 1, "R1", 0, 600⟩, ⟨1, 2, "R2", 0, 600⟩, ⟨2, 3, "R3", 0, 600⟩]
  ∧ (RoundRobin.plan ["R1", "R2", "R3"] [0, 1, 2] (fun _ _ => 600)
        [⟨1, 5, some 2⟩, ⟨2, 5, some 2⟩, ⟨3, 5, some 2⟩]).2.1 = 3 := by
  refine ⟨?_, ?_, ?_⟩
  · intro cap nodes ts tt d idx0 tries htries hfind
    match tries, htries with
    | t + 1, _ =>
      simp only [RoundRobin.try_nodes]
      rw [if_neg (by simpa [List.isEmpty_iff] using hfind)]
  · simp [RoundRobin.plan, RoundRobin.sort_jobs, RoundRobin.try_nodes,
      RoundRobin.find_available_slots, RoundRobin.find_aux, RoundRobin.allocate_slots,
      List.insertionSort, List.orderedInsert, job_deadline_le, deadline_le_bool,
      Function.update, List.enum, List.enumFrom,
      show ¬(600:ℚ) = 0 by norm_num, show min (3600:ℚ) 600 = 600 by norm_num,
      show (0:ℚ) < 600 by norm_num, show (600:ℚ) - 600 = 0 by norm_num,
      show (0:ℚ) < 3600 by norm_num, show (600:ℚ) ≤ 3600 by norm_num,
      show ¬((3600:ℚ) < 600) by norm_num, show ¬((3600:ℚ) ≤ 600) by norm_num,
      show ¬((600:ℚ) ≤ 0) by norm_num, show (3600:ℚ) - 600 = 3000 by norm_num,
      show ¬((3600:ℚ) = 0) by norm_num]
  · simp [RoundRobin.plan, RoundRobin.sort_jobs, RoundRobin.try_nodes,
      RoundRobin.find_available_slots, RoundRobin.find_aux, RoundRobin.allocate_slots,
      List.insertionSort, List.orderedInsert, job_deadline_le, deadline_le_bool,
      Function.update, List.enum, List.enumFrom,
      show ¬(600:ℚ) = 0 by norm_num, show min (3600:ℚ) 600 = 600 by norm_num,
      show (0:ℚ) < 600 by norm_num, show (600:ℚ) - 600 = 0 by norm_num,
      show (0:ℚ) < 3600 by norm_num, show (600:ℚ) ≤ 3600 by norm_num,
      show ¬((3600:ℚ) < 600) by norm_num, show ¬((3600:ℚ) ≤ 600) by norm_num,
      show ¬((600:ℚ) ≤ 0) by norm_num, show (3600:ℚ) - 600 = 3000 by norm_num,
      show ¬((3600:ℚ) = 0) by norm_num]

/-- Witness for C5 (amended) at a concrete input: a job placed on the first
tried route advances the cursor from 0 to 1. -/
theorem C5_cursor_one_step_on_first_try_success_witness :
    (0 : ℕ) < 3
  ∧ RoundRobin.find_available_slots
      ((fun (_ : String) (_ : ℕ) => (3600 : ℚ))
        ((["R1", "R2", "R3"] : List String).getD (0 % (["R1", "R2", "R3"] : List String).length) ""))
      [0, 1, 2]
      ((fun (_ : String) => (600 : ℚ))
        ((["R1", "R2", "R3"] : List String).getD (0 % (["R1", "R2", "R3"] : List String).length) ""))
      (some 2) ≠ []
  ∧ (RoundRobin.try_nodes (fun _ _ => 3600) ["R1", "R2", "R3"] [0, 1, 2]
      (fun _ => 600) (some 2) 0 3).2.1 = 0 + 1 := by
  have h2 : RoundRobin.find_available_slots
      ((fun (_ : String) (_ : ℕ) => (3600 : ℚ))
        ((["R1", "R2", "R3"] : List String).getD (0 % (["R1", "R2", "R3"] : List String).length) ""))
      [0, 1, 2]
      ((fun (_ : String) => (600 : ℚ))
        ((["R1", "R2", "R3"] : List String).getD (0 % (["R1", "R2", "R3"] : List String).length) ""))
      (some 2) ≠ [] := by
    simp [RoundRobin.find_available_slots, RoundRobin.find_aux, List.enum, List.enumFrom,
      show ¬(600:ℚ) = 0 by norm_num, show min (3600:ℚ) 600 = 600 by norm_num,
      show (0:ℚ) < 600 by norm_num]
  exact ⟨by omega, h2,
    C5_cursor_one_step_on_first_try_success.1 (fun _ _ => 3600) ["R1", "R2", "R3"]
      [0, 1, 2] (fun _ => 600) (some 2) 0 3 (by omega) h2⟩

/-! ### C6 -/

namespace MilpGreenPlanner

theorem generate_schedule_foldl_aux :
    ∀ (valid : List Key) (x carbon : Key → ℚ) (acc : List MEntry),
      valid.foldl
        (fun schedule key =>
          if 1/1000000 < x key then
            schedule ++ [⟨key.job_id, key.forecast_id, key.route_key, x key,
              x key * 3600, x key * carbon key⟩]
          else schedule)
        acc
      = acc ++ (valid.filter (fun k => decide (1/1000000 < x k))).map
          (fun k => ⟨k.job_id, k.forecast_id, k.route_key, x k, x k * 3600, x k * carbon k⟩) := by
  intro valid
  induction valid with
  | nil => intro x carbon acc; simp
  | cons k rest ih =>
    intro x carbon acc
    rw [List.foldl_cons]
    by_cases hk : 1/1000000 < x k
    · rw [if_pos hk, ih, List.filter_cons_of_pos (by simpa using hk), List.map_cons]
      simp
    · rw [if_neg hk, ih, List.filter_cons_of_neg (by simpa using hk)]

end MilpGreenPlanner

/-- C6 counterexample: the claim says the threshold is ε = 1e-3 and
`allocated_seconds = x · transfer_time` clipped to 3600.  The code uses the
threshold 1e-6 and `allocated_time = x * 3600`.  At `x = 1e-4` the code emits
an entry while the claimed reconstruction emits none; at `x = 1`,
`transfer_time = 1800`, the code allocates 3600 s while the claimed
reconstruction allocates 1800 s. -/
theorem C6_counterexample_threshold_and_seconds :
    (MilpGreenPlanner.generate_schedule [⟨1, 0, "A_B"⟩] (fun _ => 1/10000) (fun _ => 50)).length = 1
  ∧ (MilpGreenPlanner.claim_reconstruction [⟨1, 0, "A_B"⟩] (fun _ => 1/10000)
      (fun _ => 1800) (fun _ => 50)).length = 0
  ∧ (MilpGreenPlanner.generate_schedule [⟨1, 0, "A_B"⟩] (fun _ => 1) (fun _ => 50)).map
      MilpGreenPlanner.MEntry.allocated_time = [3600]
  ∧ (MilpGreenPlanner.claim_reconstruction [⟨1, 0, "A_B"⟩] (fun _ => 1)
      (fun _ => 1800) (fun _ => 50)).map MilpGreenPlanner.MEntry.allocated_time = [1800]
  ∧ MilpGreenPlanner.generate_schedule [⟨1, 0, "A_B"⟩] (fun _ => 1/10000) (fun _ => 50)
      ≠ MilpGreenPlanner.claim_reconstruction [⟨1, 0, "A_B"⟩] (fun _ => 1/10000)
          (fun _ => 1800) (fun _ => 50) := by
  refine ⟨?_, ?_, ?_, ?_, ?_⟩ <;>
  norm_num [MilpGreenPlanner.generate_schedule, MilpGreenPlanner.claim_reconstruction]

/-- C6 (amended): the reconstruction emits one entry exactly for every key
whose solved value exceeds 1e-6 (not 1e-3), in table order, and each entry's
allocated_time is `x * 3600` (not `x · transfer_time` clipped; since
`x ∈ [0,1]` the 3600 bound is respected anyway). -/
theorem C6_reconstruction_threshold_1e6 (valid : List MilpGreenPlanner.Key)
    (x carbon : MilpGreenPlanner.Key → ℚ) :
    MilpGreenPlanner.generate_schedule valid x carbon
      = (valid.filter (fun k => decide (1/1000000 < x k))).map
          (fun k => ⟨k.job_id, k.forecast_id, k.route_key, x k, x k * 3600, x k * carbon k⟩) := by
  rw [MilpGreenPlanner.generate_schedule, MilpGreenPlanner.generate_schedule_foldl_aux]
  rfl

/-! ### C7 -/

namespace DataGenerator

theorem forecast_fold_rows (route_key source_node destination_node : String)
    (job : Job) (energy_json : EnergyData) (emis : ℕ → Option ℚ) :
    ∀ (forecast_idx : List ℕ) (dl : List AssocRow) (r : AssocRow),
      r ∈ forecast_idx.foldl
        (fun data_list fidx =>
          match emis fidx with
          | none => data_list
          | some e =>
            data_list ++ [{ source_node := source_node
                            destination_node := destination_node
                            route_key := route_key
                            job_id := job.id
                            forecast_id := fidx
                            transfer_time := energy_json.transfer_duration
                            throughput := (energy_json.job_size_bytes * 8 : ℚ) / energy_json.transfer_duration
                            carbon_emissions := e }])
        dl →
      r ∈ dl ∨ (r.route_key = route_key ∧ r.job_id = job.id) := by
  intro forecast_idx
  induction forecast_idx with
  | nil => intro dl r hr; exact Or.inl hr
  | cons fidx rest ih =>
    intro dl r hr
    rw [List.foldl_cons] at hr
    rcases ih _ r hr with h | h
    · revert h
      cases emis fidx with
      | none => exact Or.inl
      | some e =>
        intro h
        rcases List.mem_append.mp h with h2 | h2
        · exact Or.inl h2
        · right
          simp only [List.mem_singleton] at h2
          subst h2
          exact ⟨rfl, rfl⟩
    · exact Or.inr h

theorem jobs_fold_rows (route_key source_node destination_node : String)
    (sim_output : String → ℕ → Option EnergyData)
    (emissions : String → ℕ → ℕ → EnergyData → Option ℚ) (forecast_idx : List ℕ) :
    ∀ (jobs : List Job) (dl : List AssocRow) (r : AssocRow),
      r ∈ jobs.foldl
        (fun data_list job =>
          match sim_output route_key job.id with
          | none => data_list
          | some energy_json =>
            forecast_idx.foldl
              (fun data_list fidx =>
                match emissions route_key job.id fidx energy_json with
                | none => data_list
                | some e =>
                  data_list ++ [{ source_node := source_node
                                  destination_node := destination_node
                                  route_key := route_key
                                  job_id := job.id
                                  forecast_id := fidx
                                  transfer_time := energy_json.transfer_duration
                                  throughput := (energy_json.job_size_bytes * 8 : ℚ) / energy_json.transfer_duration
                                  carbon_emissions := e }])
              data_list)
        dl →
      r ∈ dl ∨ (r.route_key = route_key ∧
        ∃ j ∈ jobs, r.job_id = j.id ∧ (sim_output route_key j.id).isSome) := by
  intro jobs
  induction jobs with
  | nil => intro dl r hr; exact Or.inl hr
  | cons job rest ih =>
    intro dl r hr
    rw [List.foldl_cons] at hr
    rcases ih _ r hr with h | h
    · revert h
      cases hs : sim_output route_key job.id with
      | none => exact Or.inl
      | some energy_json =>
        intro h
        rcases forecast_fold_rows route_key source_node destination_node job energy_json
          (fun fidx => emissions route_key job.id fidx energy_json) forecast_idx dl r h with h2 | h2
        · exact Or.inl h2
        · exact Or.inr ⟨h2.1, job, by simp, h2.2, by rw [hs]; rfl⟩
    · rcases h with ⟨h1, j, hj, h2⟩
      exact Or.inr ⟨h1, j, List.mem_cons_of_mem _ hj, h2⟩

theorem create_intervals_rows (jobs : List Job) (forecast_idx : List ℕ)
    (sim_output : String → ℕ → Option EnergyData)
    (emissions : String → ℕ → ℕ → EnergyData → Option ℚ) :
    ∀ (route_keys : List String) (r : AssocRow),
      r ∈ create_intervals_historical route_keys jobs forecast_idx sim_output emissions →
      ∃ j ∈ jobs, r.job_id = j.id ∧ (sim_output r.route_key j.id).isSome := by
  have main : ∀ (route_keys : List String) (dl : List AssocRow) (r : AssocRow),
      r ∈ route_keys.foldl
        (fun data_list route_key =>
          let parts := route_key_split route_key
          let source_node := parts.getD 0 ""
          let destination_node := parts.getD 1 ""
          jobs.foldl
            (fun data_list job =>
              match sim_output route_key job.id with
              | none => data_list
              | some energy_json =>
                forecast_idx.foldl
                  (fun data_list fidx =>
                    match emissions route_key job.id fidx energy_json with
                    | none => data_list
                    | some e =>
                      data_list ++ [{ source_node := source_node
                                      destination_node := destination_node
                                      route_key := route_key
                                      job_id := job.id
                                      forecast_id := fidx
                                      transfer_time := energy_json.transfer_duration
                                      throughput := (energy_json.job_size_bytes * 8 : ℚ) / energy_json.transfer_duration
                                      carbon_emissions := e }])
                  data_list)
            data_list)
        dl →
      r ∈ dl ∨ ∃ j ∈ jobs, r.job_id = j.id ∧ (sim_output r.route_key j.id).isSome := by
    intro route_keys
    induction route_keys with
    | nil => intro dl r hr; exact Or.inl hr
    | cons route_key rest ih =>
      intro dl r hr
      rw [List.foldl_cons] at hr
      rcases ih _ r hr with h | h
      · rcases jobs_fold_rows route_key ((route_key_split route_key).getD 0 "")
          ((route_key_split route_key).getD 1 "") sim_output emissions forecast_idx jobs dl r h with h2 | h2
        · exact Or.inl h2
        · rcases h2 with ⟨h1, j, hj, h3, h4⟩
          exact Or.inr ⟨j, hj, h3, h1 ▸ h4⟩
      · exact Or.inr h
  intro route_keys r hr
  rcases main route_keys [] r hr with h | h
  · simp at h
  · exact h

end DataGenerator

/-- C7 counterexample: the claim says EVERY planner tolerates missing
association rows.  MilpGreenPlanner's constructor reads
`self.associations_df.loc[(job, slot, route)]` for every job, every slot up to
its deadline, and EVERY route, so a table that has rows for route A only makes
the constructor raise KeyError (modelled: `none`) on route B. -/
theorem C7_counterexample_milp_keyerror_on_missing_row :
    MilpGreenPlanner.valid_combinations [⟨1, 5, some 0⟩] [0] ["A", "B"] 0
      (fun j t r => if r = "A" ∧ j = 1 ∧ t = 0 then some ⟨50, 8000, 100⟩ else none) = none := by
  simp [MilpGreenPlanner.valid_combinations, List.foldlM]

/-- C7 (amended): the generator omits all rows of a (route, job) pair with no
simulator output — every emitted association row traces back to a job whose
simulator output exists — and the greedy planner treats a job absent from the
metrics (no rows at all) as unschedulable without error, leaving the capacity
untouched; but MilpGreenPlanner raises on missing rows (see counterexample). -/
theorem C7_missing_sim_output_rows_absent (jobs : List Job) (forecast_idx : List ℕ)
    (sim_output : String → ℕ → Option DataGenerator.EnergyData)
    (emissions : String → ℕ → ℕ → DataGenerator.EnergyData → Option ℚ)
    (route_keys : List String) :
    (∀ (rk : String) (jid : ℕ),
      sim_output rk jid = none →
      ∀ r ∈ DataGenerator.create_intervals_historical route_keys jobs forecast_idx
          sim_output emissions,
        ¬(r.route_key = rk ∧ r.job_id = jid))
  ∧ (∀ (cap : String → ℕ → ℚ) (ts : List ℕ) (j : ℕ) (d : Option ℕ),
      CarbonAwarePlanner.allocate_job cap ts j d [] = (false, cap, [])) := by
  constructor
  · intro rk jid hnone r hr ⟨hrk, hjid⟩
    obtain ⟨j, _, hjd, hsome⟩ := DataGenerator.create_intervals_rows jobs forecast_idx
      sim_output emissions route_keys r hr
    rw [hrk, ← hjd, hjid, hnone] at hsome
    simp at hsome
  · intro cap ts j d
    rfl

/-! ### C10 -/

theorem job_deadline_le_none_imp (a b : Job) :
    job_deadline_le a b → a.deadline = none → b.deadline = none := by
  intro h ha
  unfold job_deadline_le deadline_le_bool at h
  rw [ha] at h
  cases hb : b.deadline with
  | none => rfl
  | some y => rw [hb] at h; simp at h

/-- C10: both greedy planners order jobs with a null deadline after every job
with a numeric deadline (the sort key maps None to infinity), and a null
deadline disables the per-slot deadline filter, so every forecast slot is
eligible. -/
theorem C10_null_deadline_sorted_last_and_unconstrained (jobs : List Job) :
    List.Pairwise (fun a b => a.deadline = none → b.deadline = none)
      (CarbonAwarePlanner.sort_jobs jobs)
  ∧ List.Pairwise (fun a b => a.deadline = none → b.deadline = none)
      (RoundRobin.sort_jobs jobs)
  ∧ ∀ slot, CarbonAwarePlanner.slot_skipped none slot = false := by
  refine ⟨?_, ?_, fun _ => rfl⟩
  · exact (List.sorted_insertionSort job_deadline_le jobs).imp
      (fun h => job_deadline_le_none_imp _ _ h)
  · exact (List.sorted_insertionSort job_deadline_le jobs).imp
      (fun h => job_deadline_le_none_imp _ _ h)

/-- Witness for C10 at a concrete job list containing a null-deadline job. -/
theorem C10_null_deadline_sorted_last_and_unconstrained_witness :
    List.Pairwise (fun a b => a.deadline = none → b.deadline = none)
      (CarbonAwarePlanner.sort_jobs [⟨1, 5, none⟩, ⟨2, 5, some 3⟩])
  ∧ List.Pairwise (fun a b => a.deadline = none → b.deadline = none)
      (RoundRobin.sort_jobs [⟨1, 5, none⟩, ⟨2, 5, some 3⟩])
  ∧ ∀ slot, CarbonAwarePlanner.slot_skipped none slot = false :=
  C10_null_deadline_sorted_last_and_unconstrained [⟨1, 5, none⟩, ⟨2, 5, some 3⟩]

/-! ### C3: greedy capacity invariants -/

namespace CarbonAwarePlanner

theorem allocs_sum_cons (p : ℕ × ℚ) (l : List (ℕ × ℚ)) (s : ℕ) :
    allocs_sum (p :: l) s = (if p.1 = s then p.2 else 0) + allocs_sum l s := by
  unfold allocs_sum
  by_cases h : p.1 = s
  · rw [List.filter_cons_of_pos (by simpa using h), List.map_cons, List.sum_cons, if_pos h]
  · rw [List.filter_cons_of_neg (by simpa using h), if_neg h, zero_add]

theorem allocs_sum_nonneg (l : List (ℕ × ℚ)) (h : ∀ p ∈ l, 0 < p.2) (s : ℕ) :
    0 ≤ allocs_sum l s := by
  unfold allocs_sum
  apply List.sum_nonneg
  intro x hx
  obtain ⟨p, hp, rfl⟩ := List.mem_map.mp hx
  exact (h p (List.mem_of_mem_filter hp)).le

theorem find_slots_conservation :
    ∀ (slots : List ℕ) (cap : ℕ → ℚ) (d : Option ℕ) (rem : ℚ) (s : ℕ),
      (find_slots cap slots d rem).1 s + allocs_sum (find_slots cap slots d rem).2.1 s
        = cap s := by
  intro slots
  induction slots with
  | nil => intro cap d rem s; simp [find_slots, allocs_sum]
  | cons slot rest ih =>
    intro cap d rem s
    simp only [find_slots]
    by_cases hskip : slot_skipped d slot = true
    · rw [if_pos hskip]
      exact ih cap d rem s
    · rw [if_neg hskip]
      by_cases hrem : rem ≤ 0
      · rw [if_pos hrem]
        simp [allocs_sum]
      · rw [if_neg hrem]
        by_cases havail : 0 < cap slot
        · rw [if_pos havail]
          dsimp only
          rw [allocs_sum_cons]
          have h := ih (Function.update cap slot (cap slot - min (cap slot) rem)) d
            (rem - min (cap slot) rem) s
          by_cases hs : slot = s
          · subst hs
            rw [Function.update_same] at h
            rw [if_pos rfl]
            linarith
          · rw [Function.update_noteq (Ne.symm hs)] at h
            rw [if_neg hs]
            linarith
        · rw [if_neg havail]
          exact ih cap d rem s

theorem find_slots_cap_nonneg :
    ∀ (slots : List ℕ) (cap : ℕ → ℚ) (d : Option ℕ) (rem : ℚ),
      (∀ s, 0 ≤ cap s) → ∀ s, 0 ≤ (find_slots cap slots d rem).1 s := by
  intro slots
  induction slots with
  | nil => intro cap d rem h s; exact h s
  | cons slot rest ih =>
    intro cap d rem h s
    simp only [find_slots]
    by_cases hskip : slot_skipped d slot = true
    · rw [if_pos hskip]; exact ih cap d rem h s
    · rw [if_neg hskip]
      by_cases hrem : rem ≤ 0
      · rw [if_pos hrem]; exact h s
      · rw [if_neg hrem]
        by_cases havail : 0 < cap slot
        · rw [if_pos havail]
          dsimp only
          refine ih _ d _ (fun s2 => ?_) s
          by_cases hs2 : s2 = slot
          · subst hs2
            rw [Function.update_same]
            have := min_le_left (cap s2) rem
            linarith
          · rw [Function.update_noteq hs2]
            exact h s2
        · rw [if_neg havail]; exact ih cap d rem h s

theorem find_slots_allocs_pos :
    ∀ (slots : List ℕ) (cap : ℕ → ℚ) (d : Option ℕ) (rem : ℚ) (p : ℕ × ℚ),
      p ∈ (find_slots cap slots d rem).2.1 → 0 < p.2 := by
  intro slots
  induction slots with
  | nil => intro cap d rem p hp; simp [find_slots] at hp
  | cons slot rest ih =>
    intro cap d rem p hp
    simp only [find_slots] at hp
    by_cases hskip : slot_skipped d slot = true
    · rw [if_pos hskip] at hp; exact ih _ _ _ _ hp
    · rw [if_neg hskip] at hp
      by_cases hrem : rem ≤ 0
      · rw [if_pos hrem] at hp; simp at hp
      · rw [if_neg hrem] at hp
        by_cases havail : 0 < cap slot
        · rw [if_pos havail] at hp
          dsimp only at hp
          rcases List.mem_cons.mp hp with h | h
          · subst h
            exact lt_min havail (by linarith)
          · exact ih _ _ _ _ h
        · rw [if_neg havail] at hp; exact ih _ _ _ _ hp

theorem entries_time_sum_cons (e : Entry) (es : List Entry) (rk : String) (fid : ℕ) :
    entries_time_sum (e :: es) rk fid
      = (if e.route = rk ∧ e.forecast_id = fid then e.allocated_time else 0)
        + entries_time_sum es rk fid := by
  unfold entries_time_sum
  by_cases h : e.route = rk ∧ e.forecast_id = fid
  · rw [List.filter_cons_of_pos (by simpa using h), List.map_cons, List.sum_cons, if_pos h]
  · rw [List.filter_cons_of_neg (by simpa using h), if_neg h, zero_add]

theorem entries_time_sum_append (es es2 : List Entry) (rk : String) (fid : ℕ) :
    entries_time_sum (es ++ es2) rk fid
      = entries_time_sum es rk fid + entries_time_sum es2 rk fid := by
  unfold entries_time_sum
  rw [List.filter_append, List.map_append, List.sum_append]

theorem entries_time_sum_nonneg (es : List Entry) (h : ∀ e ∈ es, 0 < e.allocated_time)
    (rk : String) (fid : ℕ) : 0 ≤ entries_time_sum es rk fid := by
  unfold entries_time_sum
  apply List.sum_nonneg
  intro x hx
  obtain ⟨e, he, rfl⟩ := List.mem_map.mp hx
  exact (h e (List.mem_of_mem_filter he)).le

theorem entries_time_sum_map_allocs (allocs : List (ℕ × ℚ)) (j : ℕ) (rk0 rk : String)
    (c t : ℚ) (d : Option ℕ) (fid : ℕ) :
    entries_time_sum (allocs.map (fun p => ⟨j, rk0, p.1, p.2, c, t, d⟩)) rk fid
      = if rk0 = rk then allocs_sum allocs fid else 0 := by
  induction allocs with
  | nil =>
    by_cases h : rk0 = rk <;> simp [entries_time_sum, allocs_sum, h]
  | cons p l ih =>
    rw [List.map_cons, entries_time_sum_cons, ih, allocs_sum_cons]
    by_cases hr : rk0 = rk
    · by_cases hf : p.1 = fid
      · simp [hr, hf]
      · simp [hr, hf]
    · simp [hr]

theorem allocate_job_conservation :
    ∀ (routes : List (String × Metrics)) (cap : String → ℕ → ℚ) (ts : List ℕ)
      (j : ℕ) (d : Option ℕ) (rk : String) (fid : ℕ),
      (allocate_job cap ts j d routes).2.1 rk fid
        + entries_time_sum (allocate_job cap ts j d routes).2.2 rk fid = cap rk fid := by
  intro routes
  induction routes with
  | nil => intro cap ts j d rk fid; simp [allocate_job, entries_time_sum]
  | cons rm rest ih =>
    intro cap ts j d rk fid
    simp only [allocate_job]
    by_cases hsucc : (find_slots (cap rm.1) ts d rm.2.transfer_time).2.2 ≤ 0
    · rw [if_pos hsucc]
      dsimp only
      rw [entries_time_sum_map_allocs]
      by_cases hr : rm.1 = rk
      · subst hr
        rw [Function.update_same, if_pos rfl]
        exact find_slots_conservation ts (cap rm.1) d rm.2.transfer_time fid
      · rw [Function.update_noteq (Ne.symm hr), if_neg hr, add_zero]
    · rw [if_neg hsucc]
      have hcap : Function.update cap rm.1
          (rollback (find_slots (cap rm.1) ts d rm.2.transfer_time).1
            (find_slots (cap rm.1) ts d rm.2.transfer_time).2.1) = cap := by
        rw [find_slots_rollback, Function.update_eq_self]
      rw [hcap]
      exact ih cap ts j d rk fid

theorem allocate_job_cap_nonneg :
    ∀ (routes : List (String × Metrics)) (cap : String → ℕ → ℚ) (ts : List ℕ)
      (j : ℕ) (d : Option ℕ),
      (∀ rk fid, 0 ≤ cap rk fid) →
      ∀ rk fid, 0 ≤ (allocate_job cap ts j d routes).2.1 rk fid := by
  intro routes
  induction routes with
  | nil => intro cap ts j d h rk fid; exact h rk fid
  | cons rm rest ih =>
    intro cap ts j d h rk fid
    simp only [allocate_job]
    by_cases hsucc : (find_slots (cap rm.1) ts d rm.2.transfer_time).2.2 ≤ 0
    · rw [if_pos hsucc]
      dsimp only
      by_cases hr : rm.1 = rk
      · subst hr
        rw [Function.update_same]
        exact find_slots_cap_nonneg ts (cap rm.1) d rm.2.transfer_time (h rm.1) fid
      · rw [Function.update_noteq (Ne.symm hr)]
        exact h rk fid
    · rw [if_neg hsucc]
      have hcap : Function.update cap rm.1
          (rollback (find_slots (cap rm.1) ts d rm.2.transfer_time).1
            (find_slots (cap rm.1) ts d rm.2.transfer_time).2.1) = cap := by
        rw [find_slots_rollback, Function.update_eq_self]
      rw [hcap]
      exact ih cap ts j d h rk fid

theorem allocate_job_entries_pos :
    ∀ (routes : List (String × Metrics)) (cap : String → ℕ → ℚ) (ts : List ℕ)
      (j : ℕ) (d : Option ℕ) (e : Entry),
      e ∈ (allocate_job cap ts j d routes).2.2 → 0 < e.allocated_time := by
  intro routes
  induction routes with
  | nil => intro cap ts j d e he; simp [allocate_job] at he
  | cons rm rest ih =>
    intro cap ts j d e he
    simp only [allocate_job] at he
    by_cases hsucc : (find_slots (cap rm.1) ts d rm.2.transfer_time).2.2 ≤ 0
    · rw [if_pos hsucc] at he
      dsimp only at he
      obtain ⟨p, hp, rfl⟩ := List.mem_map.mp he
      exact find_slots_allocs_pos ts _ d _ p hp
    · rw [if_neg hsucc] at he
      exact ih _ _ _ _ _ he

theorem plan_fold_invariant :
    ∀ (l : List Job) (ts : List ℕ) (jm : ℕ → List (String × Metrics)) (rev : Bool)
      (st : (String → ℕ → ℚ) × List Entry × List ℕ),
      (∀ rk fid, 0 ≤ st.1 rk fid) →
      (∀ e ∈ st.2.1, 0 < e.allocated_time) →
      (∀ rk fid, 0 ≤ (List.foldl
          (fun st job =>
            let r := allocate_job st.1 ts job.id job.deadline (sort_routes rev (jm job.id))
            if r.1 then (r.2.1, st.2.1 ++ r.2.2, st.2.2)
            else (r.2.1, st.2.1, st.2.2 ++ [job.id]))
          st l).1 rk fid)
      ∧ (∀ e ∈ (List.foldl
          (fun st job =>
            let r := allocate_job st.1 ts job.id job.deadline (sort_routes rev (jm job.id))
            if r.1 then (r.2.1, st.2.1 ++ r.2.2, st.2.2)
            else (r.2.1, st.2.1, st.2.2 ++ [job.id]))
          st l).2.1, 0 < e.allocated_time)
      ∧ (∀ rk fid, (List.foldl
          (fun st job =>
            let r := allocate_job st.1 ts job.id job.deadline (sort_routes rev (jm job.id))
            if r.1 then (r.2.1, st.2.1 ++ r.2.2, st.2.2)
            else (r.2.1, st.2.1, st.2.2 ++ [job.id]))
          st l).1 rk fid
        + entries_time_sum (List.foldl
          (fun st job =>
            let r := allocate_job st.1 ts job.id job.deadline (sort_routes rev (jm job.id))
            if r.1 then (r.2.1, st.2.1 ++ r.2.2, st.2.2)
            else (r.2.1, st.2.1, st.2.2 ++ [job.id]))
          st l).2.1 rk fid
        = st.1 rk fid + entries_time_sum st.2.1 rk fid) := by
  intro l
  induction l with
  | nil =>
    intro ts jm rev st h1 h2
    exact ⟨h1, h2, fun rk fid => rfl⟩
  | cons job rest ih =>
    intro ts jm rev st h1 h2
    rw [List.foldl_cons]
    dsimp only
    by_cases hr : (allocate_job st.1 ts job.id job.deadline (sort_routes rev (jm job.id))).1 = true
    · rw [if_pos hr]
      obtain ⟨ih1, ih2, ih3⟩ := ih ts jm rev
        ((allocate_job st.1 ts job.id job.deadline (sort_routes rev (jm job.id))).2.1,
         st.2.1 ++ (allocate_job st.1 ts job.id job.deadline (sort_routes rev (jm job.id))).2.2,
         st.2.2)
        (fun rk fid => allocate_job_cap_nonneg _ _ _ _ _ h1 rk fid)
        (by
          intro e he
          rcases List.mem_append.mp he with h | h
          · exact h2 e h
          · exact allocate_job_entries_pos _ _ _ _ _ e h)
      refine ⟨ih1, ih2, fun rk fid => ?_⟩
      rw [ih3 rk fid]
      dsimp only
      rw [entries_time_sum_append]
      have hc := allocate_job_conservation (sort_routes rev (jm job.id)) st.1 ts job.id
        job.deadline rk fid
      linarith
    · have hfalse : (allocate_job st.1 ts job.id job.deadline
          (sort_routes rev (jm job.id))).1 = false := by
        revert hr
        cases (allocate_job st.1 ts job.id job.deadline (sort_routes rev (jm job.id))).1 <;> simp
      rw [if_neg hr]
      have hcap := allocate_job_failed_cap (sort_routes rev (jm job.id)) st.1 ts job.id
        job.deadline hfalse
      obtain ⟨ih1, ih2, ih3⟩ := ih ts jm rev
        ((allocate_job st.1 ts job.id job.deadline (sort_routes rev (jm job.id))).2.1,
         st.2.1, st.2.2 ++ [job.id])
        (fun rk fid => by
          show 0 ≤ (allocate_job st.1 ts job.id job.deadline
            (sort_routes rev (jm job.id))).2.1 rk fid
          rw [hcap]
          exact h1 rk fid)
        h2
      refine ⟨ih1, ih2, fun rk fid => ?_⟩
      rw [ih3 rk fid]
      dsimp only
      rw [hcap]

end CarbonAwarePlanner

/-! ### C3: SJF capacity invariants -/

namespace ShortestJobFirst

theorem sjf_sum_cons (e : SJFEntry) (es : List SJFEntry) (node : String) (fid : ℕ) :
    sjf_entries_time_sum (e :: es) node fid
      = (if e.node = node ∧ e.forecast_id = fid then e.allocated_time else 0)
        + sjf_entries_time_sum es node fid := by
  unfold sjf_entries_time_sum
  by_cases h : e.node = node ∧ e.forecast_id = fid
  · rw [List.filter_cons_of_pos (by simpa using h), List.map_cons, List.sum_cons, if_pos h]
  · rw [List.filter_cons_of_neg (by simpa using h), if_neg h, zero_add]

theorem sjf_sum_append (es es2 : List SJFEntry) (node : String) (fid : ℕ) :
    sjf_entries_time_sum (es ++ es2) node fid
      = sjf_entries_time_sum es node fid + sjf_entries_time_sum es2 node fid := by
  unfold sjf_entries_time_sum
  rw [List.filter_append, List.map_append, List.sum_append]

theorem sjf_sum_nonneg (es : List SJFEntry) (h : ∀ e ∈ es, 0 < e.allocated_time)
    (node : String) (fid : ℕ) : 0 ≤ sjf_entries_time_sum es node fid := by
  unfold sjf_entries_time_sum
  apply List.sum_nonneg
  intro x hx
  obtain ⟨e, he, rfl⟩ := List.mem_map.mp hx
  exact (h e (List.mem_of_mem_filter he)).le

theorem sjf_sum_other (es : List SJFEntry) (n node : String)
    (h : ∀ e ∈ es, e.node = n) (hne : ¬ n = node) (fid : ℕ) :
    sjf_entries_time_sum es node fid = 0 := by
  induction es with
  | nil => rfl
  | cons e rest ih =>
    rw [sjf_sum_cons, ih (fun e2 he2 => h e2 (List.mem_cons_of_mem _ he2))]
    rw [if_neg (by
      intro hcon
      exact hne ((h e (by simp)) ▸ hcon.1))]
    rw [zero_add]

theorem sjf_allocate_indices_conservation (ts : List ℕ) (i j : ℕ) (node : String) (tps : ℚ) :
    ∀ (idxs : List ℕ) (capN : ℕ → ℚ) (s : ℕ),
      (allocate_indices ts i j node tps capN idxs).1 s
        + sjf_entries_time_sum (allocate_indices ts i j node tps capN idxs).2 node s
        = capN s := by
  intro idxs
  induction idxs with
  | nil => intro capN s; simp [allocate_indices, sjf_entries_time_sum]
  | cons idx rest ih =>
    intro capN s
    simp only [allocate_indices]
    rw [sjf_sum_cons]
    by_cases hs : ts.getD idx 0 = s
    · subst hs
      rw [if_pos ⟨rfl, rfl⟩]
      have h := ih (Function.update capN (ts.getD idx 0) (capN (ts.getD idx 0) - tps)) (ts.getD idx 0)
      rw [Function.update_same] at h
      linarith
    · rw [if_neg (fun hcon => hs hcon.2)]
      have h := ih (Function.update capN (ts.getD idx 0) (capN (ts.getD idx 0) - tps)) s
      rw [Function.update_noteq (Ne.symm hs)] at h
      linarith

theorem sjf_allocate_indices_entries (ts : List ℕ) (i j : ℕ) (node : String) (tps : ℚ) :
    ∀ (idxs : List ℕ) (capN : ℕ → ℚ) (e : SJFEntry),
      e ∈ (allocate_indices ts i j node tps capN idxs).2 →
      e.node = node ∧ e.allocated_time = tps := by
  intro idxs
  induction idxs with
  | nil => intro capN e he; simp [allocate_indices] at he
  | cons idx rest ih =>
    intro capN e he
    simp only [allocate_indices] at he
    rcases List.mem_cons.mp he with h | h
    · subst h; exact ⟨rfl, rfl⟩
    · exact ih _ e h

theorem sjf_allocate_indices_apply (ts : List ℕ) (i j : ℕ) (node : String) (tps : ℚ) :
    ∀ (idxs : List ℕ) (capN : ℕ → ℚ),
      (idxs.map (fun ix => ts.getD ix 0)).Nodup →
      ∀ s, (allocate_indices ts i j node tps capN idxs).1 s
        = if s ∈ idxs.map (fun ix => ts.getD ix 0) then capN s - tps else capN s := by
  intro idxs
  induction idxs with
  | nil => intro capN _ s; simp [allocate_indices]
  | cons idx rest ih =>
    intro capN hnodup s
    rw [List.map_cons] at hnodup
    have hnotin := (List.nodup_cons.mp hnodup).1
    have hrest := (List.nodup_cons.mp hnodup).2
    simp only [allocate_indices]
    rw [ih _ hrest s, List.map_cons]
    by_cases hs : s = ts.getD idx 0
    · subst hs
      rw [if_neg (fun hcon => hnotin hcon), Function.update_same,
        if_pos (List.mem_cons_self _ _)]
    · rw [Function.update_noteq hs]
      by_cases hmem : s ∈ rest.map (fun ix => ts.getD ix 0)
      · rw [if_pos hmem, if_pos (List.mem_cons_of_mem _ hmem)]
      · rw [if_neg hmem, if_neg (fun hcon =>
          (List.mem_cons.mp hcon).elim (fun h2 => hs h2) (fun h2 => hmem h2))]

theorem window_ok_spec (capN : ℕ → ℚ) (ts : List ℕ) (start needed : ℕ) (tps : ℚ)
    (h : window_ok capN ts start needed tps = true) :
    ∀ i < needed, tps ≤ capN (ts.getD (start + i) 0) := by
  intro i hi
  unfold window_ok at h
  rw [List.all_eq_true] at h
  have := h i (List.mem_range.mpr hi)
  simpa using this

theorem sjf_find_spec (capN : ℕ → ℚ) (ts : List ℕ) (m : Metrics) (d : Option ℕ)
    (hne : find_available_slots capN ts (some m) d ≠ []) :
    ¬ m.transfer_time ≤ 0 ∧
    ∃ start,
      find_available_slots capN ts (some m) d
        = (List.range (slots_needed_of m.transfer_time)).map (start + ·)
      ∧ start + slots_needed_of m.transfer_time ≤ ts.length
      ∧ window_ok capN ts start (slots_needed_of m.transfer_time)
          (m.transfer_time / (slots_needed_of m.transfer_time : ℚ)) = true := by
  by_cases ht : m.transfer_time ≤ 0
  · exfalso
    apply hne
    simp only [find_available_slots]
    rw [if_pos ht]
  · refine ⟨ht, ?_⟩
    simp only [find_available_slots] at hne ⊢
    rw [if_neg ht] at hne ⊢
    cases hf : (List.range (ts.length + 1 - slots_needed_of m.transfer_time)).find?
        (sjf_start_ok capN ts (slots_needed_of m.transfer_time)
          (sjf_deadline_slot ts d) (m.transfer_time / (slots_needed_of m.transfer_time : ℚ))) with
    | none =>
      rw [hf] at hne
      exact absurd rfl hne
    | some start =>
      refine ⟨start, rfl, ?_, ?_⟩
      · have hmem := List.mem_of_find?_eq_some hf
        rw [List.mem_range] at hmem
        omega
      · have hp := List.find?_some hf
        unfold sjf_start_ok at hp
        simp only [Bool.and_eq_true] at hp
        exact hp.2

theorem sjf_window_nodup (ts : List ℕ) (hts : ts.Nodup) (start needed : ℕ)
    (hlen : start + needed ≤ ts.length) :
    (((List.range needed).map (start + ·)).map (fun ix => ts.getD ix 0)).Nodup := by
  rw [List.map_map]
  refine List.Nodup.map_on ?_ (List.nodup_range needed)
  intro i hi j hj hf
  rw [List.mem_range] at hi hj
  have hi2 : start + i < ts.length := by omega
  have hj2 : start + j < ts.length := by omega
  simp only [Function.comp] at hf
  rw [List.getD_eq_getElem ts 0 hi2, List.getD_eq_getElem ts 0 hj2] at hf
  have := (List.Nodup.getElem_inj_iff hts).mp hf
  omega

end ShortestJobFirst

namespace ShortestJobFirst

theorem sjf_try_conservation :
    ∀ (opts : List String) (cap : String → ℕ → ℚ) (ts : List ℕ)
      (jm : List (String × Metrics)) (i j : ℕ) (d : Option ℕ) (node : String) (fid : ℕ),
      (sjf_try cap ts jm i j d opts).1 node fid
        + sjf_entries_time_sum (sjf_try cap ts jm i j d opts).2.1 node fid
        = cap node fid := by
  intro opts
  induction opts with
  | nil => intro cap ts jm i j d node fid; simp [sjf_try, sjf_entries_time_sum]
  | cons n rest ih =>
    intro cap ts jm i j d node fid
    simp only [sjf_try]
    cases hm : jm.lookup n with
    | none => exact ih cap ts jm i j d node fid
    | some m =>
      dsimp only
      by_cases hempty : (find_available_slots (cap n) ts (some m) d).isEmpty = true
      · rw [if_pos hempty]
        exact ih cap ts jm i j d node fid
      · rw [if_neg hempty]
        dsimp only
        by_cases hn : n = node
        · subst hn
          rw [Function.update_same]
          exact sjf_allocate_indices_conservation ts i j n _ _ (cap n) fid
        · rw [Function.update_noteq (Ne.symm hn)]
          rw [sjf_sum_other _ n node
            (fun e he => (sjf_allocate_indices_entries ts i j n _ _ _ e he).1) hn fid]
          rw [add_zero]

theorem sjf_try_failed :
    ∀ (opts : List String) (cap : String → ℕ → ℚ) (ts : List ℕ)
      (jm : List (String × Metrics)) (i j : ℕ) (d : Option ℕ),
      (sjf_try cap ts jm i j d opts).2.2 = false →
      (sjf_try cap ts jm i j d opts).1 = cap := by
  intro opts
  induction opts with
  | nil => intro cap ts jm i j d _; rfl
  | cons n rest ih =>
    intro cap ts jm i j d h
    revert h
    simp only [sjf_try]
    cases hm : jm.lookup n with
    | none =>
      intro h
      exact ih cap ts jm i j d h
    | some m =>
      dsimp only
      by_cases hempty : (find_available_slots (cap n) ts (some m) d).isEmpty = true
      · rw [if_pos hempty]
        intro h
        exact ih cap ts jm i j d h
      · rw [if_neg hempty]
        intro h
        simp at h

theorem sjf_try_entries_pos :
    ∀ (opts : List String) (cap : String → ℕ → ℚ) (ts : List ℕ)
      (jm : List (String × Metrics)) (i j : ℕ) (d : Option ℕ) (e : SJFEntry),
      e ∈ (sjf_try cap ts jm i j d opts).2.1 → 0 < e.allocated_time := by
  intro opts
  induction opts with
  | nil => intro cap ts jm i j d e he; simp [sjf_try] at he
  | cons n rest ih =>
    intro cap ts jm i j d e he
    revert he
    simp only [sjf_try]
    cases hm : jm.lookup n with
    | none =>
      intro he
      exact ih cap ts jm i j d e he
    | some m =>
      dsimp only
      by_cases hempty : (find_available_slots (cap n) ts (some m) d).isEmpty = true
      · rw [if_pos hempty]
        intro he
        exact ih cap ts jm i j d e he
      · rw [if_neg hempty]
        intro he
        have hne : find_available_slots (cap n) ts (some m) d ≠ [] := by
          intro hcon
          exact hempty (by rw [hcon]; rfl)
        obtain ⟨ht, _, _, _, _⟩ := sjf_find_spec (cap n) ts m d hne
        have hts := (sjf_allocate_indices_entries ts i j n _ _ _ e he).2
        rw [hts]
        apply div_pos (by linarith [not_le.mp ht])
        have := List.length_pos.mpr hne
        exact_mod_cast Nat.cast_pos.mpr this

theorem sjf_try_cap_nonneg :
    ∀ (opts : List String) (cap : String → ℕ → ℚ) (ts : List ℕ)
      (jm : List (String × Metrics)) (i j : ℕ) (d : Option ℕ),
      ts.Nodup →
      (∀ n2 fid, 0 ≤ cap n2 fid) →
      ∀ n2 fid, 0 ≤ (sjf_try cap ts jm i j d opts).1 n2 fid := by
  intro opts
  induction opts with
  | nil => intro cap ts jm i j d _ h0 n2 fid; exact h0 n2 fid
  | cons n rest ih =>
    intro cap ts jm i j d hts h0 n2 fid
    simp only [sjf_try]
    cases hm : jm.lookup n with
    | none => exact ih cap ts jm i j d hts h0 n2 fid
    | some m =>
      dsimp only
      by_cases hempty : (find_available_slots (cap n) ts (some m) d).isEmpty = true
      · rw [if_pos hempty]
        exact ih cap ts jm i j d hts h0 n2 fid
      · rw [if_neg hempty]
        dsimp only
        by_cases hn : n2 = n
        · subst hn
          rw [Function.update_same]
          have hne : find_available_slots (cap n2) ts (some m) d ≠ [] := by
            intro hcon
            exact hempty (by rw [hcon]; rfl)
          obtain ⟨ht, start, heq, hlen, hwin⟩ := sjf_find_spec (cap n2) ts m d hne
          have hlen2 : ((find_available_slots (cap n2) ts (some m) d).length : ℚ)
              = (slots_needed_of m.transfer_time : ℚ) := by
            rw [heq]
            simp
          rw [hlen2, heq]
          rw [sjf_allocate_indices_apply ts i j n2 _ _ (cap n2)
            (sjf_window_nodup ts hts start _ hlen) fid]
          by_cases hmem : fid ∈ ((List.range (slots_needed_of m.transfer_time)).map
              (start + ·)).map (fun ix => ts.getD ix 0)
          · rw [if_pos hmem]
            obtain ⟨ix, hix, hfid⟩ := List.mem_map.mp hmem
            obtain ⟨i2, hi2, hix2⟩ := List.mem_map.mp hix
            rw [List.mem_range] at hi2
            have hwini := window_ok_spec (cap n2) ts start _ _ hwin i2 hi2
            rw [hix2, hfid] at hwini
            linarith
          · rw [if_neg hmem]
            exact h0 n2 fid
        · rw [Function.update_noteq hn]
          exact h0 n2 fid

end ShortestJobFirst

namespace ShortestJobFirst

theorem sjf_plan_fold_invariant :
    ∀ (l : List (ℕ × Job)) (nodes : List String) (ts : List ℕ)
      (jmf : ℕ → List (String × Metrics))
      (st : (String → ℕ → ℚ) × List SJFEntry × List ℕ),
      ts.Nodup →
      (∀ n fid, 0 ≤ st.1 n fid) →
      (∀ e ∈ st.2.1, 0 < e.allocated_time) →
      (∀ n fid, 0 ≤ (List.foldl
          (fun st p =>
            let job := p.2
            let jm := jmf job.id
            let r := sjf_try st.1 ts jm p.1 job.id job.deadline (node_options nodes jm)
            if r.2.2 then (r.1, st.2.1 ++ r.2.1, st.2.2)
            else (r.1, st.2.1, st.2.2 ++ [job.id]))
          st l).1 n fid)
      ∧ (∀ e ∈ (List.foldl
          (fun st p =>
            let job := p.2
            let jm := jmf job.id
            let r := sjf_try st.1 ts jm p.1 job.id job.deadline (node_options nodes jm)
            if r.2.2 then (r.1, st.2.1 ++ r.2.1, st.2.2)
            else (r.1, st.2.1, st.2.2 ++ [job.id]))
          st l).2.1, 0 < e.allocated_time)
      ∧ (∀ n fid, (List.foldl
          (fun st p =>
            let job := p.2
            let jm := jmf job.id
            let r := sjf_try st.1 ts jm p.1 job.id job.deadline (node_options nodes jm)
            if r.2.2 then (r.1, st.2.1 ++ r.2.1, st.2.2)
            else (r.1, st.2.1, st.2.2 ++ [job.id]))
          st l).1 n fid
        + sjf_entries_time_sum (List.foldl
          (fun st p =>
            let job := p.2
            let jm := jmf job.id
            let r := sjf_try st.1 ts jm p.1 job.id job.deadline (node_options nodes jm)
            if r.2.2 then (r.1, st.2.1 ++ r.2.1, st.2.2)
            else (r.1, st.2.1, st.2.2 ++ [job.id]))
          st l).2.1 n fid
        = st.1 n fid + sjf_entries_time_sum st.2.1 n fid) := by
  intro l
  induction l with
  | nil =>
    intro nodes ts jmf st _ h1 h2
    exact ⟨h1, h2, fun n fid => rfl⟩
  | cons p rest ih =>
    intro nodes ts jmf st hts h1 h2
    rw [List.foldl_cons]
    dsimp only
    by_cases hr : (sjf_try st.1 ts (jmf p.2.id) p.1 p.2.id p.2.deadline
        (node_options nodes (jmf p.2.id))).2.2 = true
    · rw [if_pos hr]
      obtain ⟨ih1, ih2, ih3⟩ := ih nodes ts jmf
        ((sjf_try st.1 ts (jmf p.2.id) p.1 p.2.id p.2.deadline
            (node_options nodes (jmf p.2.id))).1,
         st.2.1 ++ (sjf_try st.1 ts (jmf p.2.id) p.1 p.2.id p.2.deadline
            (node_options nodes (jmf p.2.id))).2.1,
         st.2.2)
        hts
        (fun n fid => sjf_try_cap_nonneg _ _ _ _ _ _ _ hts h1 n fid)
        (by
          intro e he
          rcases List.mem_append.mp he with h | h
          · exact h2 e h
          · exact sjf_try_entries_pos _ _ _ _ _ _ _ e h)
      refine ⟨ih1, ih2, fun n fid => ?_⟩
      rw [ih3 n fid]
      dsimp only
      rw [sjf_sum_append]
      have hc := sjf_try_conservation (node_options nodes (jmf p.2.id)) st.1 ts (jmf p.2.id)
        p.1 p.2.id p.2.deadline n fid
      linarith
    · have hfalse : (sjf_try st.1 ts (jmf p.2.id) p.1 p.2.id p.2.deadline
          (node_options nodes (jmf p.2.id))).2.2 = false := by
        revert hr
        cases (sjf_try st.1 ts (jmf p.2.id) p.1 p.2.id p.2.deadline
          (node_options nodes (jmf p.2.id))).2.2 <;> simp
      rw [if_neg hr]
      have hcap := sjf_try_failed (node_options nodes (jmf p.2.id)) st.1 ts (jmf p.2.id)
        p.1 p.2.id p.2.deadline hfalse
      obtain ⟨ih1, ih2, ih3⟩ := ih nodes ts jmf
        ((sjf_try st.1 ts (jmf p.2.id) p.1 p.2.id p.2.deadline
            (node_options nodes (jmf p.2.id))).1,
         st.2.1, st.2.2 ++ [p.2.id])
        hts
        (fun n fid => by
          show 0 ≤ (sjf_try st.1 ts (jmf p.2.id) p.1 p.2.id p.2.deadline
            (node_options nodes (jmf p.2.id))).1 n fid
          rw [hcap]
          exact h1 n fid)
        h2
      refine ⟨ih1, ih2, fun n fid => ?_⟩
      rw [ih3 n fid]
      dsimp only
      rw [hcap]

end ShortestJobFirst

/-- C3: capacity invariants of the planners the claim cites.  For the greedy
carbon planner and for ShortestJobFirst (whose slot list is the sorted unique
forecast ids, hence Nodup): after a full plan every (route, slot) capacity lies
in [0, 3600] and the total seconds allocated by the emitted entries to any
(route, slot) never exceed 3600. -/
theorem C3_capacity_and_allocation_bounds :
    (∀ (ts : List ℕ) (jm : ℕ → List (String × CarbonAwarePlanner.Metrics)) (rev : Bool)
      (jobs : List Job) (rk : String) (fid : ℕ),
      0 ≤ (CarbonAwarePlanner.plan ts jm rev jobs).1 rk fid
      ∧ (CarbonAwarePlanner.plan ts jm rev jobs).1 rk fid ≤ 3600
      ∧ CarbonAwarePlanner.entries_time_sum
          (CarbonAwarePlanner.plan ts jm rev jobs).2.1 rk fid ≤ 3600)
  ∧ (∀ (nodes : List String) (ts : List ℕ) (jm : ℕ → List (String × ShortestJobFirst.Metrics))
      (jobs : List Job) (node : String) (fid : ℕ),
      ts.Nodup →
      0 ≤ (ShortestJobFirst.plan nodes ts jm jobs).1 node fid
      ∧ (ShortestJobFirst.plan nodes ts jm jobs).1 node fid ≤ 3600
      ∧ ShortestJobFirst.sjf_entries_time_sum
          (ShortestJobFirst.plan nodes ts jm jobs).2.1 node fid ≤ 3600) := by
  constructor
  · intro ts jm rev jobs rk fid
    obtain ⟨h1, h2, h3⟩ := CarbonAwarePlanner.plan_fold_invariant
      (CarbonAwarePlanner.sort_jobs jobs) ts jm rev ((fun _ _ => 3600), [], [])
      (fun rk2 fid2 => by norm_num) (fun e he => by simp at he)
    have hp1 : 0 ≤ (CarbonAwarePlanner.plan ts jm rev jobs).1 rk fid := h1 rk fid
    have hpos : ∀ e ∈ (CarbonAwarePlanner.plan ts jm rev jobs).2.1, 0 < e.allocated_time := h2
    have hc3 : (CarbonAwarePlanner.plan ts jm rev jobs).1 rk fid
        + CarbonAwarePlanner.entries_time_sum
            (CarbonAwarePlanner.plan ts jm rev jobs).2.1 rk fid
        = 3600 + 0 := h3 rk fid
    rw [add_zero] at hc3
    have hnn := CarbonAwarePlanner.entries_time_sum_nonneg _ hpos rk fid
    exact ⟨hp1, by linarith, by linarith⟩
  · intro nodes ts jm jobs node fid hts
    obtain ⟨h1, h2, h3⟩ := ShortestJobFirst.sjf_plan_fold_invariant
      ((jobs.insertionSort (fun a b => ShortestJobFirst.sjf_job_le jm a b = true)).enum)
      nodes ts jm ((fun _ _ => 3600), [], [])
      hts (fun n2 fid2 => by norm_num) (fun e he => by simp at he)
    have hp1 : 0 ≤ (ShortestJobFirst.plan nodes ts jm jobs).1 node fid := h1 node fid
    have hpos : ∀ e ∈ (ShortestJobFirst.plan nodes ts jm jobs).2.1, 0 < e.allocated_time := h2
    have hc3 : (ShortestJobFirst.plan nodes ts jm jobs).1 node fid
        + ShortestJobFirst.sjf_entries_time_sum
            (ShortestJobFirst.plan nodes ts jm jobs).2.1 node fid
        = 3600 + 0 := h3 node fid
    rw [add_zero] at hc3
    have hnn := ShortestJobFirst.sjf_sum_nonneg _ hpos node fid
    exact ⟨hp1, by linarith, by linarith⟩

/-- Witness for C3 at concrete inputs: the greedy scenario of C4 and an SJF run
with Nodup slot list [0, 1]. -/
theorem C3_capacity_and_allocation_bounds_witness :
    ([0, 1] : List ℕ).Nodup
  ∧ (0 ≤ (CarbonAwarePlanner.plan [0, 1]
        (fun j => if j = 1 then [("A_B", ⟨"A", "B", 200, 1, 1800⟩)] else [])
        false [⟨1, 5, some 1⟩]).1 "A_B" 0
      ∧ (CarbonAwarePlanner.plan [0, 1]
        (fun j => if j = 1 then [("A_B", ⟨"A", "B", 200, 1, 1800⟩)] else [])
        false [⟨1, 5, some 1⟩]).1 "A_B" 0 ≤ 3600
      ∧ CarbonAwarePlanner.entries_time_sum (CarbonAwarePlanner.plan [0, 1]
        (fun j => if j = 1 then [("A_B", ⟨"A", "B", 200, 1, 1800⟩)] else [])
        false [⟨1, 5, some 1⟩]).2.1 "A_B" 0 ≤ 3600)
  ∧ (0 ≤ (ShortestJobFirst.plan ["A"] [0, 1] (fun _ => []) []).1 "A" 0
      ∧ (ShortestJobFirst.plan ["A"] [0, 1] (fun _ => []) []).1 "A" 0 ≤ 3600
      ∧ ShortestJobFirst.sjf_entries_time_sum
          (ShortestJobFirst.plan ["A"] [0, 1] (fun _ => []) []).2.1 "A" 0 ≤ 3600) :=
  ⟨by decide,
   C3_capacity_and_allocation_bounds.1 [0, 1]
     (fun j => if j = 1 then [("A_B", ⟨"A", "B", 200, 1, 1800⟩)] else [])
     false [⟨1, 5, some 1⟩] "A_B" 0,
   C3_capacity_and_allocation_bounds.2 ["A"] [0, 1] (fun _ => []) [] "A" 0 (by decide)⟩

/-- Witness for C7 at a concrete input: job 1 has no simulator output, job 2
does; the only emitted row belongs to job 2, and the theorem shows it cannot be
a (A_B, job 1) row. -/
theorem C7_missing_sim_output_rows_absent_witness :
    (fun (_ : String) (j : ℕ) =>
      if j = 2 then some (⟨3600, [], [], 0, 0, 1000⟩ : DataGenerator.EnergyData)
      else none) "A_B" 1 = none
  ∧ (⟨"A", "B", "A_B", 2, 0, 3600, ((1000 : ℕ) : ℚ) * 8 / 3600, 5⟩ : DataGenerator.AssocRow) ∈
      DataGenerator.create_intervals_historical ["A_B"] [⟨1, 5, some 0⟩, ⟨2, 5, some 0⟩] [0]
        (fun _ j => if j = 2 then some ⟨3600, [], [], 0, 0, 1000⟩ else none)
        (fun _ _ _ _ => some 5)
  ∧ ¬((⟨"A", "B", "A_B", 2, 0, 3600, ((1000 : ℕ) : ℚ) * 8 / 3600, 5⟩ :
        DataGenerator.AssocRow).route_key = "A_B"
      ∧ (⟨"A", "B", "A_B", 2, 0, 3600, ((1000 : ℕ) : ℚ) * 8 / 3600, 5⟩ :
        DataGenerator.AssocRow).job_id = 1)
  ∧ CarbonAwarePlanner.allocate_job (fun _ _ => 3600) [0] 1 (some 0) []
      = (false, (fun _ _ => 3600), []) := by
  have hmem : (⟨"A", "B", "A_B", 2, 0, 3600, ((1000 : ℕ) : ℚ) * 8 / 3600, 5⟩ :
      DataGenerator.AssocRow) ∈
      DataGenerator.create_intervals_historical ["A_B"] [⟨1, 5, some 0⟩, ⟨2, 5, some 0⟩] [0]
        (fun _ j => if j = 2 then some ⟨3600, [], [], 0, 0, 1000⟩ else none)
        (fun _ _ _ _ => some 5) :=
    List.mem_singleton.mpr rfl
  exact ⟨rfl, hmem,
    (C7_missing_sim_output_rows_absent [⟨1, 5, some 0⟩, ⟨2, 5, some 0⟩] [0]
      (fun _ j => if j = 2 then some ⟨3600, [], [], 0, 0, 1000⟩ else none)
      (fun _ _ _ _ => some 5) ["A_B"]).1 "A_B" 1 rfl _ hmem,
    (C7_missing_sim_output_rows_absent [⟨1, 5, some 0⟩, ⟨2, 5, some 0⟩] [0]
      (fun _ j => if j = 2 then some ⟨3600, [], [], 0, 0, 1000⟩ else none)
      (fun _ _ _ _ => some 5) ["A_B"]).2 (fun _ _ => 3600) [0] 1 (some 0)⟩
